import Mathlib

/-!
# FG-MPI: co-shared reference counts, rank-translation map, datatype contents, SGE hostfile

A shallow embedding of `src/include/fgmpiimpl.h`, of
`src/mpi/datatype/type_create_hindexed_block.c`, of
`src/pm/hydra/tools/rmk/sge/rmk_sge_query_node_list.c` and of the offset arithmetic of
`test/mpi/rma/adlb_mimic1.c`.

Conventions of the embedding:

* a C `int` is an `Int` kept in the 32-bit two's complement range; the result of an
  arithmetic operation or of a narrowing conversion is brought back into that range by
  `wrapInt` (reduction modulo `2^32`);
* a pointer is an `Option Nat`: `none` is `NULL`, `some a` is the address `a`; a `char *`
  that is `NULL` or points to a string is an `Option String`;
* a macro or function that dereferences a pointer returns `none` when the pointer is `NULL`
  or does not address an allocated cell;
* the content of `fgmpiimpl.h` stands under `#if defined(FINEGRAIN_MPI)`, which is taken as
  defined; the debug messages (`MPIU_DBG_MSG_FMT`) of the reference-count macros have no
  effect on the state and are left out;
* routines, macros and constants that the embedded code uses and that are not under `src/`
  are parameters of the definitions, or are modelled from the specification in definitions
  whose comment says so.
-/

namespace FGMPI

/-! ## Definitions -/

/-- Least value of a C `int`. -/
def INT_MIN : Int := -2147483648

/-- Greatest value of a C `int`. -/
def INT_MAX : Int := 2147483647

/-- The `int` that results from storing the integer `x`: 32-bit two's complement wrap. -/
def wrapInt (x : Int) : Int := (x + 2147483648) % 4294967296 - 2147483648

/-- Membership in the range of a C `int`. -/
def isInt (x : Int) : Prop := INT_MIN ≤ x ∧ x ≤ INT_MAX

instance (x : Int) : Decidable (isInt x) := by unfold isInt; infer_instance

/-- Pointer to an `int`. -/
abbrev IntPtr := Option Nat

/-- The `int` cells allocated so far; the address of a cell is its position. -/
abbrev IntHeap := List Int

/-- Modelled from the spec: `MPIU_Malloc(sizeof(int))` expands to `FG_MPIU_Malloc`, which is
declared `extern` in the header and defined outside `src/`. Following section 7 of the spec
(allocation failure of shared-state structures terminates the process), a call that returns
yields a cell that no live pointer addresses: here the next position of the heap. The content
of the new cell is indeterminate in C; it is 0 here and every caller overwrites it. -/
def MPIU_Malloc (h : IntHeap) : Nat × IntHeap := (h.length, h ++ [0])

/-- Read `*p`. -/
def load (h : IntHeap) (p : IntPtr) : Option Int :=
  match p with
  | none => none
  | some a => h[a]?

/-- Write `*p = v`. -/
def store (h : IntHeap) (p : IntPtr) (v : Int) : Option IntHeap :=
  match p with
  | none => none
  | some a => if a < h.length then some (h.set a v) else none

/-- The struct `Coproclet_shared_vars_t` (fgmpiimpl.h, lines 115-126). The map and the
barrier block are referred to by address only. -/
structure Coproclet_shared_vars_t where
  ref_withinComm_countptr : IntPtr
  ref_acrossComm_countptr : IntPtr
  rtw_map : Option Nat
  co_barrier_vars : Option Nat
deriving DecidableEq

/-- A co-shared record together with the heap its count pointers point into. -/
structure CoState where
  vars : Coproclet_shared_vars_t
  heap : IntHeap
deriving DecidableEq

/-- The value `*ref_withinComm_countptr`, when the pointer addresses a cell. -/
def CoState.withinCount (s : CoState) : Option Int :=
  load s.heap s.vars.ref_withinComm_countptr

/-- The value `*ref_acrossComm_countptr`, when the pointer addresses a cell. -/
def CoState.acrossCount (s : CoState) : Option Int :=
  load s.heap s.vars.ref_acrossComm_countptr

/-- Macro `MPIR_Comm_init_coshared_withinComm_ref`: allocate a cell, point the field at it,
store 1. -/
def MPIR_Comm_init_coshared_withinComm_ref (s : CoState) : CoState :=
  let r := MPIU_Malloc s.heap
  { vars := { s.vars with ref_withinComm_countptr := some r.1 }, heap := r.2.set r.1 1 }

/-- Macro `MPIR_Comm_add_coshared_withinComm_ref`: `(*ref_withinComm_countptr)++`. -/
def MPIR_Comm_add_coshared_withinComm_ref (s : CoState) : Option CoState :=
  match load s.heap s.vars.ref_withinComm_countptr with
  | none => none
  | some c =>
    match store s.heap s.vars.ref_withinComm_countptr (wrapInt (c + 1)) with
    | none => none
    | some h => some { s with heap := h }

/-- Macro `MPIR_Comm_release_coshared_withinComm_ref`: `*inuse_ptr = --(*ref_withinComm_countptr)`.
The second component of the result is the value written to `*inuse_ptr`. -/
def MPIR_Comm_release_coshared_withinComm_ref (s : CoState) : Option (CoState × Int) :=
  match load s.heap s.vars.ref_withinComm_countptr with
  | none => none
  | some c =>
    match store s.heap s.vars.ref_withinComm_countptr (wrapInt (c - 1)) with
    | none => none
    | some h => some ({ s with heap := h }, wrapInt (c - 1))

/-- Macro `MPIR_Comm_init_coshared_acrossComm_ref`: allocate a cell, point the field at it,
store 1. -/
def MPIR_Comm_init_coshared_acrossComm_ref (s : CoState) : CoState :=
  let r := MPIU_Malloc s.heap
  { vars := { s.vars with ref_acrossComm_countptr := some r.1 }, heap := r.2.set r.1 1 }

/-- Macro `MPIR_Comm_add_coshared_acrossComm_ref`: `(*ref_acrossComm_countptr)++`. -/
def MPIR_Comm_add_coshared_acrossComm_ref (s : CoState) : Option CoState :=
  match load s.heap s.vars.ref_acrossComm_countptr with
  | none => none
  | some c =>
    match store s.heap s.vars.ref_acrossComm_countptr (wrapInt (c + 1)) with
    | none => none
    | some h => some { s with heap := h }

/-- Macro `MPIR_Comm_release_coshared_acrossComm_ref`: `*inuse_ptr = --(*ref_acrossComm_countptr)`.
The second component of the result is the value written to `*inuse_ptr`. -/
def MPIR_Comm_release_coshared_acrossComm_ref (s : CoState) : Option (CoState × Int) :=
  match load s.heap s.vars.ref_acrossComm_countptr with
  | none => none
  | some c =>
    match store s.heap s.vars.ref_acrossComm_countptr (wrapInt (c - 1)) with
    | none => none
    | some h => some ({ s with heap := h }, wrapInt (c - 1))

/-- Macro `MPIR_Comm_init_coshared_all_ref`: the within macro, then the across macro. -/
def MPIR_Comm_init_coshared_all_ref (s : CoState) : CoState :=
  MPIR_Comm_init_coshared_acrossComm_ref (MPIR_Comm_init_coshared_withinComm_ref s)

/-- Macro `MPIR_Comm_add_coshared_all_ref`: the within macro, then the across macro. -/
def MPIR_Comm_add_coshared_all_ref (s : CoState) : Option CoState :=
  match MPIR_Comm_add_coshared_withinComm_ref s with
  | none => none
  | some s1 => MPIR_Comm_add_coshared_acrossComm_ref s1

/-- Macro `MPIR_Comm_release_coshared_all_ref`: the within macro, then the across macro. The
result carries the values written to `*inuse_withinComm_ptr` and `*inuse_acrossComm_ptr`. -/
def MPIR_Comm_release_coshared_all_ref (s : CoState) : Option (CoState × Int × Int) :=
  match MPIR_Comm_release_coshared_withinComm_ref s with
  | none => none
  | some (s1, w) =>
    match MPIR_Comm_release_coshared_acrossComm_ref s1 with
    | none => none
    | some (s2, a) => some (s2, w, a)

/-- Apply the within add macro `n` times. -/
def addWithinN : Nat → CoState → Option CoState
  | 0, s => some s
  | n + 1, s =>
    match MPIR_Comm_add_coshared_withinComm_ref s with
    | none => none
    | some s1 => addWithinN n s1

/-- Apply the within release macro `n` times; the list holds the reported values in call
order. -/
def releaseWithinN : Nat → CoState → Option (CoState × List Int)
  | 0, s => some (s, [])
  | n + 1, s =>
    match MPIR_Comm_release_coshared_withinComm_ref s with
    | none => none
    | some (s1, v) =>
      match releaseWithinN n s1 with
      | none => none
      | some (s2, vs) => some (s2, v :: vs)

/-- Apply the across add macro `n` times. -/
def addAcrossN : Nat → CoState → Option CoState
  | 0, s => some s
  | n + 1, s =>
    match MPIR_Comm_add_coshared_acrossComm_ref s with
    | none => none
    | some s1 => addAcrossN n s1

/-- Apply the across release macro `n` times; the list holds the reported values in call
order. -/
def releaseAcrossN : Nat → CoState → Option (CoState × List Int)
  | 0, s => some (s, [])
  | n + 1, s =>
    match MPIR_Comm_release_coshared_acrossComm_ref s with
    | none => none
    | some (s1, v) =>
      match releaseAcrossN n s1 with
      | none => none
      | some (s2, vs) => some (s2, v :: vs)

/-- Init, `k` adds, `k + 1` releases on the within counter: the reported values. -/
def withinReports (s0 : CoState) (k : Nat) : Option (List Int) :=
  match addWithinN k (MPIR_Comm_init_coshared_withinComm_ref s0) with
  | none => none
  | some s => (releaseWithinN (k + 1) s).map Prod.snd

/-- Init, `k` adds, `k + 1` releases on the across counter: the reported values. -/
def acrossReports (s0 : CoState) (k : Nat) : Option (List Int) :=
  match addAcrossN k (MPIR_Comm_init_coshared_acrossComm_ref s0) with
  | none => none
  | some s => (releaseAcrossN (k + 1) s).map Prod.snd

/-- A record with all four pointers `NULL` and an empty heap. -/
def nullState : CoState :=
  { vars := { ref_withinComm_countptr := none, ref_acrossComm_countptr := none,
              rtw_map := none, co_barrier_vars := none },
    heap := [] }

/-- A record whose two count pointers address the cells 0 and 1 of the heap `[w, x]`. -/
def twoCells (w x : Int) : CoState :=
  { vars := { ref_withinComm_countptr := some 0, ref_acrossComm_countptr := some 1,
              rtw_map := none, co_barrier_vars := none },
    heap := [w, x] }

/-- A call of one of the two combined macros that change an initialised record. -/
inductive RefOp where
  | add
  | release
deriving DecidableEq

/-- One call of a combined macro: the state after it and, for a release, the values written
to `*inuse_withinComm_ptr` and `*inuse_acrossComm_ptr`. -/
def stepAll (op : RefOp) (s : CoState) : Option (CoState × Option (Int × Int)) :=
  match op with
  | RefOp.add =>
    match MPIR_Comm_add_coshared_all_ref s with
    | none => none
    | some s1 => some (s1, none)
  | RefOp.release =>
    match MPIR_Comm_release_coshared_all_ref s with
    | none => none
    | some (s1, w, a) => some (s1, some (w, a))

/-- Run a sequence of calls; the result lists, call by call, the state after the call and
what the call reported. -/
def traceAll : List RefOp → CoState → Option (List (CoState × Option (Int × Int)))
  | [], _ => some []
  | op :: ops, s =>
    match stepAll op s with
    | none => none
    | some (s1, r) =>
      match traceAll ops s1 with
      | none => none
      | some t => some ((s1, r) :: t)

/-- Number of adds minus number of releases. -/
def balance : List RefOp → Int
  | [] => 0
  | RefOp.add :: ops => 1 + balance ops
  | RefOp.release :: ops => -1 + balance ops

/-- Well-formed pairing: before the last call, no call sequence has released more references
than it has added. -/
def wellPaired (ops : List RefOp) : Prop :=
  ∀ n : Nat, n < ops.length → 0 ≤ balance (ops.take n)

instance (ops : List RefOp) : Decidable (wellPaired ops) := by
  unfold wellPaired; infer_instance

/-- What a within macro must leave alone: the across pointer, the value it points to, the
map pointer and the barrier pointer. -/
def frameAcross (s s1 : CoState) : Prop :=
  s1.vars.ref_acrossComm_countptr = s.vars.ref_acrossComm_countptr ∧
  s1.acrossCount = s.acrossCount ∧
  s1.vars.rtw_map = s.vars.rtw_map ∧
  s1.vars.co_barrier_vars = s.vars.co_barrier_vars

/-- What an across macro must leave alone: the within pointer, the value it points to, the
map pointer and the barrier pointer. -/
def frameWithin (s s1 : CoState) : Prop :=
  s1.vars.ref_withinComm_countptr = s.vars.ref_withinComm_countptr ∧
  s1.withinCount = s.withinCount ∧
  s1.vars.rtw_map = s.vars.rtw_map ∧
  s1.vars.co_barrier_vars = s.vars.co_barrier_vars

instance (s s1 : CoState) : Decidable (frameAcross s s1) := by
  unfold frameAcross; infer_instance

instance (s s1 : CoState) : Decidable (frameWithin s s1) := by
  unfold frameWithin; infer_instance

/-- The pointer is `NULL` or addresses an allocated cell. -/
def allocated (h : IntHeap) (p : IntPtr) : Prop :=
  ∀ a, p = some a → a < h.length

/-- The two count pointers address the same cell. -/
def aliased (s : CoState) : Prop :=
  ∃ a, s.vars.ref_withinComm_countptr = some a ∧ s.vars.ref_acrossComm_countptr = some a

/-- A record whose two count pointers both address cell 0 of the heap `[c]`. -/
def sharedCell (c : Int) : CoState :=
  { vars := { ref_withinComm_countptr := some 0, ref_acrossComm_countptr := some 0,
              rtw_map := none, co_barrier_vars := none },
    heap := [c] }

/-- Which of the two configuration macros are defined when the header is read. -/
structure MapConfig where
  ARRAY_MAP : Bool
  COMP_MAP : Bool
deriving DecidableEq

/-- The type that `RTWmap` is a typedef of. -/
inductive MapType where
  | int
  | CompressedMap
  | hshtbl
deriving DecidableEq

/-- The functions that the header binds the `RTWmap*` names to. -/
inductive MapFn where
  | RTWarrayWorldCreate
  | RTWarrayCreate
  | RTWarrayInsert
  | RTWarrayBlockInsert
  | RTWarrayFind
  | RTWarrayKill
  | RTWarrayFindLeader
  | RTWCompMapCreate
  | RTWCompMapBlockInsert
  | RTWCompMapFind
  | RTWCompMapKill
  | RTWCompMapFindLeader
  | RTWhashCreate
  | RTWhashInsert
  | RTWhashBlockInsert
  | RTWhashFind
  | hshkill
  | RTWhashFindLeader
  | RTWhashDuplicate
deriving DecidableEq

/-- What the preprocessor puts in the place of an object-like macro name: the name stays as
it is when there is no `#define` for it, it disappears when the `#define` has an empty
replacement list, and otherwise it becomes the function named in the `#define`. -/
inductive Replacement where
  | notDefined
  | empty
  | fn (f : MapFn)
deriving DecidableEq

/-- The typedef and the macro definitions that one branch of the `#if` of lines 53-96
makes. `RTWmapKill` is function-like in all three branches; the field holds the routine its
body calls before it stores `NULL`. -/
structure MapSelection where
  RTWmap : MapType
  RTWmapWorldCreate : Replacement
  RTWmapCreate : Replacement
  RTWmapInsert : Replacement
  RTWmapBlockInsert : Replacement
  RTWmapFind : Replacement
  RTWmapKill : MapFn
  RTWmapFindLeader : Replacement
  RTWmapDuplicate : Replacement
deriving DecidableEq

/-- Lines 54-64, the branch `#if defined(ARRAY_MAP)`. -/
def arraySelection : MapSelection :=
  { RTWmap := MapType.int
    RTWmapWorldCreate := Replacement.fn MapFn.RTWarrayWorldCreate
    RTWmapCreate := Replacement.fn MapFn.RTWarrayCreate
    RTWmapInsert := Replacement.fn MapFn.RTWarrayInsert
    RTWmapBlockInsert := Replacement.fn MapFn.RTWarrayBlockInsert
    RTWmapFind := Replacement.fn MapFn.RTWarrayFind
    RTWmapKill := MapFn.RTWarrayKill
    RTWmapFindLeader := Replacement.fn MapFn.RTWarrayFindLeader
    RTWmapDuplicate := Replacement.notDefined }

/-- Lines 67-78, the branch `#elif defined(COMP_MAP)`. Line 71 is `#define RTWmapInsert`
with nothing after the name. -/
def compSelection : MapSelection :=
  { RTWmap := MapType.CompressedMap
    RTWmapWorldCreate := Replacement.fn MapFn.RTWCompMapCreate
    RTWmapCreate := Replacement.fn MapFn.RTWCompMapCreate
    RTWmapInsert := Replacement.empty
    RTWmapBlockInsert := Replacement.fn MapFn.RTWCompMapBlockInsert
    RTWmapFind := Replacement.fn MapFn.RTWCompMapFind
    RTWmapKill := MapFn.RTWCompMapKill
    RTWmapFindLeader := Replacement.fn MapFn.RTWCompMapFindLeader
    RTWmapDuplicate := Replacement.notDefined }

/-- Lines 84-95, the branch `#else`. -/
def hashSelection : MapSelection :=
  { RTWmap := MapType.hshtbl
    RTWmapWorldCreate := Replacement.fn MapFn.RTWhashCreate
    RTWmapCreate := Replacement.fn MapFn.RTWhashCreate
    RTWmapInsert := Replacement.fn MapFn.RTWhashInsert
    RTWmapBlockInsert := Replacement.fn MapFn.RTWhashBlockInsert
    RTWmapFind := Replacement.fn MapFn.RTWhashFind
    RTWmapKill := MapFn.hshkill
    RTWmapFindLeader := Replacement.fn MapFn.RTWhashFindLeader
    RTWmapDuplicate := Replacement.fn MapFn.RTWhashDuplicate }

/-- Lines 49-51: `#if !defined(COMP_MAP)` / `#define ARRAY_MAP 1` / `#endif`. -/
def defaultArrayMap (c : MapConfig) : MapConfig :=
  if !c.COMP_MAP then { c with ARRAY_MAP := true } else c

/-- Lines 53, 66 and 80: `#if defined(ARRAY_MAP)`, `#elif defined(COMP_MAP)`, `#else`. -/
def selectBranch (c : MapConfig) : MapSelection :=
  if c.ARRAY_MAP then arraySelection
  else if c.COMP_MAP then compSelection
  else hashSelection

/-- The selection the header makes for a configuration: lines 49-51, then lines 53-96. -/
def selectRTWmap (c : MapConfig) : MapSelection :=
  selectBranch (defaultArrayMap c)

/-- Modelled from the spec: the storage routines `RTWarray*`, `RTWCompMap*` and `RTWhash*`
are declared in `hashmap.h` and `compmap.h`, which are not under `src/`. Section 4.2 of the
spec gives one contract for every storage strategy and names two kinds of storage: a dense
array, which holds the pair of a local rank at the position of that rank, and an associative
table, which holds a list of entries. -/
inductive Table where
  | dense (cells : List (Option (Int × Int)))
  | assoc (entries : List (Nat × Int × Int))
deriving DecidableEq

/-- Modelled from the spec: `find(local_rank) -> (global_rank, process_id)`, which fails with
NotFound (`none`) if the rank is absent (section 4.2; the storage routines are not under
`src/`). -/
def Table.find (t : Table) (local_rank : Nat) : Option (Int × Int) :=
  match t with
  | Table.dense cells =>
    match cells[local_rank]? with
    | some (some e) => some e
    | _ => none
  | Table.assoc entries =>
    match entries.find? (fun e => e.1 == local_rank) with
    | some e => some e.2
    | none => none

/-- Modelled from the spec: `insert(local_rank, global_rank, process_id)` adds one entry and
fails (`none`) if `local_rank` is already present (section 4.2; the storage routines are not
under `src/`). A dense array grows to hold the position `local_rank`. -/
def Table.insert (t : Table) (local_rank : Nat) (worldrank pid : Int) : Option Table :=
  match t.find local_rank with
  | some _ => none
  | none =>
    match t with
    | Table.dense cells =>
      some (Table.dense
        ((cells ++ List.replicate (local_rank + 1 - cells.length) none).set local_rank
          (some (worldrank, pid))))
    | Table.assoc entries => some (Table.assoc (entries ++ [(local_rank, worldrank, pid)]))

/-- Modelled from the spec: `block_insert(pairs...)` adds many entries, in order, and fails
as soon as one of them fails (section 4.2; the storage routines are not under `src/`). -/
def Table.blockInsert (t : Table) : List (Nat × Int × Int) → Option Table
  | [] => some t
  | e :: es =>
    match t.insert e.1 e.2.1 e.2.2 with
    | none => none
    | some t1 => t1.blockInsert es

/-- Modelled from the spec: `create()` builds an empty table (section 4.2); the array routine
builds a dense array, the two others an associative table. -/
def createBy (f : MapFn) : Option Table :=
  match f with
  | MapFn.RTWarrayCreate => some (Table.dense [])
  | MapFn.RTWCompMapCreate => some (Table.assoc [])
  | MapFn.RTWhashCreate => some (Table.assoc [])
  | _ => none

/-- Modelled from the spec: the single-entry insert routines of the array and of the hash
table follow the `insert` contract of section 4.2. -/
def insertBy (f : MapFn) (t : Table) (local_rank : Nat) (worldrank pid : Int) :
    Option Table :=
  match f with
  | MapFn.RTWarrayInsert => t.insert local_rank worldrank pid
  | MapFn.RTWhashInsert => t.insert local_rank worldrank pid
  | _ => none

/-- Modelled from the spec: the block insert routines of the three kinds of storage follow
the `block_insert` contract of section 4.2. -/
def blockInsertBy (f : MapFn) (t : Table) (es : List (Nat × Int × Int)) : Option Table :=
  match f with
  | MapFn.RTWarrayBlockInsert => t.blockInsert es
  | MapFn.RTWCompMapBlockInsert => t.blockInsert es
  | MapFn.RTWhashBlockInsert => t.blockInsert es
  | _ => none

/-- Modelled from the spec: the find routines of the three kinds of storage follow the
`find` contract of section 4.2. The outer `none` is a call that does not name a find
routine. -/
def findBy (f : MapFn) (t : Table) (local_rank : Nat) : Option (Option (Int × Int)) :=
  match f with
  | MapFn.RTWarrayFind => some (t.find local_rank)
  | MapFn.RTWCompMapFind => some (t.find local_rank)
  | MapFn.RTWhashFind => some (t.find local_rank)
  | _ => none

/-- The call `RTWmapCreate(...)` under a selection. -/
def RTWmapCreate (sel : MapSelection) : Option Table :=
  match sel.RTWmapCreate with
  | Replacement.fn f => createBy f
  | _ => none

/-- The statement `RTWmapInsert(map, local_rank, worldrank, pid);` under a selection. When
the name has an empty replacement list the statement that is left is the parenthesised
argument list, an expression without effect: the map stays as it is. -/
def RTWmapInsert (sel : MapSelection) (t : Table) (local_rank : Nat) (worldrank pid : Int) :
    Option Table :=
  match sel.RTWmapInsert with
  | Replacement.fn f => insertBy f t local_rank worldrank pid
  | Replacement.empty => some t
  | Replacement.notDefined => none

/-- The call `RTWmapBlockInsert(...)` under a selection. -/
def RTWmapBlockInsert (sel : MapSelection) (t : Table) (es : List (Nat × Int × Int)) :
    Option Table :=
  match sel.RTWmapBlockInsert with
  | Replacement.fn f => blockInsertBy f t es
  | _ => none

/-- The call `RTWmapFind(map, local_rank, ...)` under a selection. -/
def RTWmapFind (sel : MapSelection) (t : Table) (local_rank : Nat) :
    Option (Option (Int × Int)) :=
  match sel.RTWmapFind with
  | Replacement.fn f => findBy f t local_rank
  | _ => none

/-- Create a map, insert one entry with `RTWmapInsert`, look the local rank up. -/
def insertThenFind (c : MapConfig) (local_rank : Nat) (worldrank pid : Int) :
    Option (Option (Int × Int)) :=
  match RTWmapCreate (selectRTWmap c) with
  | none => none
  | some t =>
    match RTWmapInsert (selectRTWmap c) t local_rank worldrank pid with
    | none => none
    | some t1 => RTWmapFind (selectRTWmap c) t1 local_rank

/-- Create a map, insert one entry with `RTWmapBlockInsert`, look the local rank up. -/
def blockInsertThenFind (c : MapConfig) (local_rank : Nat) (worldrank pid : Int) :
    Option (Option (Int × Int)) :=
  match RTWmapCreate (selectRTWmap c) with
  | none => none
  | some t =>
    match RTWmapBlockInsert (selectRTWmap c) t [(local_rank, worldrank, pid)] with
    | none => none
    | some t1 => RTWmapFind (selectRTWmap c) t1 local_rank

/-- The two `int` variables that `worldrank_ptr_` and `pid_ptr_` point to. -/
structure RankOut where
  worldrank : Int
  pid : Int
deriving DecidableEq

/-- The part of a communicator that the accessor reads: the pointer `co_shared_vars`, with
the record it points to. -/
structure MPID_Comm where
  co_shared_vars : Option Coproclet_shared_vars_t
deriving DecidableEq

/-- The macro `MPIDI_Comm_get_pid_worldrank(comm_, localrank_, pid_ptr_, worldrank_ptr_)`.
The constant `MPI_PROC_NULL`, the macro `Set_PROC_NULL` and the routine `RTWPmapFind` are
not defined under `src/` and are parameters; `RTWPmapFind` gives back a value of some type
`ρ` together with the two variables as it leaves them. The macro is a `do ... while (0)`
statement: what it hands to its caller is the content of the two variables, and `none`
stands for the dereference of a `NULL` `co_shared_vars`. -/
def MPIDI_Comm_get_pid_worldrank {ρ : Type} (MPI_PROC_NULL : Int)
    (Set_PROC_NULL : RankOut → RankOut)
    (RTWPmapFind : Option Nat → Int → RankOut → ρ × RankOut)
    (comm_ : MPID_Comm) (localrank_ : Int) (out : RankOut) : Option RankOut :=
  if MPI_PROC_NULL = localrank_ then some (Set_PROC_NULL out)
  else
    match comm_.co_shared_vars with
    | none => none
    | some v => some (RTWPmapFind v.rtw_map localrank_ out).2

/-- Modelled from the spec: a find routine over a store of tables that follows section 4.2
(the routine `RTWPmapFind` is not under `src/`): it returns 0 and writes the pair when the
local rank is present, and returns 1, the NotFound failure, without writing when the map
pointer addresses no table or the rank is absent. -/
def tableFind (mem : List Table) (rtw_map : Option Nat) (localrank : Int) (out : RankOut) :
    Int × RankOut :=
  match rtw_map with
  | none => (1, out)
  | some a =>
    match mem[a]? with
    | none => (1, out)
    | some t =>
      if localrank < 0 then (1, out)
      else
        match t.find localrank.toNat with
        | some e => (0, { worldrank := e.1, pid := e.2 })
        | none => (1, out)

/-- A find routine that writes what `tableFind` writes and always returns 0. -/
def tableFindSilent (mem : List Table) (rtw_map : Option Nat) (localrank : Int)
    (out : RankOut) : Int × RankOut :=
  (0, (tableFind mem rtw_map localrank out).2)

/-- A communicator whose map pointer is the address 0. -/
def sampleComm : MPID_Comm :=
  { co_shared_vars := some { ref_withinComm_countptr := none, ref_acrossComm_countptr := none,
                             rtw_map := some 0, co_barrier_vars := none } }

/-- A store whose table 0 maps the local rank 0 to world rank 5 in process 7. -/
def sampleMem : List Table := [Table.assoc [(0, 5, 7)]]

/-- Sets both variables to -1. -/
def setBothMinusOne (_ : RankOut) : RankOut := { worldrank := -1, pid := -1 }

/-- Combiners; the routine uses `MPIX_COMBINER_HINDEXED_BLOCK`. -/
inductive Combiner where
  | MPIX_COMBINER_HINDEXED_BLOCK
deriving DecidableEq

/-- The arguments with which `MPID_Datatype_set_contents` is called: the contents
description recorded for the new datatype. `array_of_aints` is `none` for `NULL`. -/
structure Contents where
  combiner : Combiner
  nr_ints : Int
  nr_aints : Int
  nr_types : Int
  array_of_ints : List Int
  array_of_aints : Option (List Int)
  array_of_types : List Nat
deriving DecidableEq

/-- The routines that the function calls and that are not under `src/`:
`MPID_Type_blockindexed`, which receives the counts, the displacement array as it was passed
in, the flag `dispinbytes` and the old type and gives an error code and a handle; the
allocation of the local `int` array by `MPIU_CHKLMEM_MALLOC_ORJUMP`, which succeeds or not
for the requested number of `int`s and sets the error code `nomem_errno` when it does not;
and the error code of `MPID_Datatype_set_contents`. -/
structure TypeEnv where
  MPID_Type_blockindexed : Int → Int → List Int → Int → Nat → Int × Nat
  malloc_ints : Int → Bool
  nomem_errno : Int
  MPID_Datatype_set_contents : Nat → Contents → Int

/-- What a call leaves behind: the error code it returns, the handle and the contents
description it passed to `MPID_Datatype_set_contents`, and the handle it published in
`*newtype`. -/
structure TypeResult where
  mpi_errno : Int
  recorded : Option (Nat × Contents)
  newtype : Option Nat
deriving DecidableEq

/-- The loop `for (i = 0; i < count; i++) ints[i + 2] = array_of_displacements[i];` over the
values that `i` takes. Reading the displacement array or writing the `int` array outside
its bounds gives `none`. The assignment converts an `MPI_Aint` to an `int`. -/
def copyDisplacements (array_of_displacements : List Int) (ints : List Int) :
    List Nat → Option (List Int)
  | [] => some ints
  | i :: rest =>
    match array_of_displacements[i]? with
    | none => none
    | some d =>
      if i + 2 < ints.length
        then copyDisplacements array_of_displacements (ints.set (i + 2) (wrapInt d)) rest
        else none

/-- The function `MPIR_Type_create_hindexed_block_impl(count, blocklength,
array_of_displacements, oldtype, newtype)`. The outer `none` is an access outside an
array. -/
def MPIR_Type_create_hindexed_block_impl (env : TypeEnv) (count blocklength : Int)
    (array_of_displacements : List Int) (oldtype : Nat) : Option TypeResult :=
  let r := env.MPID_Type_blockindexed count blocklength array_of_displacements 1 oldtype
  if r.1 ≠ 0 then some { mpi_errno := r.1, recorded := none, newtype := none }
  else
    let n := wrapInt (count + 2)
    if !env.malloc_ints n then
      some { mpi_errno := env.nomem_errno, recorded := none, newtype := none }
    else
      let ints := List.replicate n.toNat (0 : Int)
      if 1 < ints.length then
        let ints1 := (ints.set 0 count).set 1 blocklength
        match copyDisplacements array_of_displacements ints1 (List.range count.toNat) with
        | none => none
        | some ints2 =>
          let c : Contents :=
            { combiner := Combiner.MPIX_COMBINER_HINDEXED_BLOCK
              nr_ints := n, nr_aints := 0, nr_types := 1
              array_of_ints := ints2, array_of_aints := none, array_of_types := [oldtype] }
          let e := env.MPID_Datatype_set_contents r.2 c
          if e ≠ 0 then some { mpi_errno := e, recorded := some (r.2, c), newtype := none }
          else some { mpi_errno := 0, recorded := some (r.2, c), newtype := some r.2 }
      else none

/-- An environment in which the three routines succeed; the new handle is 1. -/
def okEnv : TypeEnv :=
  { MPID_Type_blockindexed := fun _ _ _ _ _ => (0, 1)
    malloc_ints := fun _ => true
    nomem_errno := 1
    MPID_Datatype_set_contents := fun _ _ => 0 }

/-- Membership in the range of a 64-bit `MPI_Aint`. -/
def isAint64 (x : Int) : Prop := -9223372036854775808 ≤ x ∧ x ≤ 9223372036854775807

instance (x : Int) : Decidable (isAint64 x) := by unfold isAint64; infer_instance

/-- One insert statement made on a map: `RTWmapInsert` with one entry, or
`RTWmapBlockInsert` with a block of entries. -/
inductive InsertCall where
  | single (local_rank : Nat) (worldrank pid : Int)
  | block (entries : List (Nat × Int × Int))
deriving DecidableEq

/-- The entries that a sequence of insert statements asks to add, in order. -/
def entriesOf : List InsertCall → List (Nat × Int × Int)
  | [] => []
  | InsertCall.single r w p :: calls => (r, w, p) :: entriesOf calls
  | InsertCall.block es :: calls => es ++ entriesOf calls

/-- The entries that the block insert statements of a sequence ask to add, in order. -/
def blockEntriesOf : List InsertCall → List (Nat × Int × Int)
  | [] => []
  | InsertCall.single _ _ _ :: calls => blockEntriesOf calls
  | InsertCall.block es :: calls => es ++ blockEntriesOf calls

/-- Run a sequence of insert statements under a selection. -/
def runCalls (sel : MapSelection) (t : Table) : List InsertCall → Option Table
  | [] => some t
  | InsertCall.single r w p :: calls =>
    match RTWmapInsert sel t r w p with
    | none => none
    | some t1 => runCalls sel t1 calls
  | InsertCall.block es :: calls =>
    match RTWmapBlockInsert sel t es with
    | none => none
    | some t1 => runCalls sel t1 calls

/-- The pair that a list of entries holds for a local rank. -/
def lookupEntries (es : List (Nat × Int × Int)) (local_rank : Nat) : Option (Int × Int) :=
  match es.find? (fun e => e.1 == local_rank) with
  | some e => some e.2
  | none => none

/-- The constant `NUM_TIMES` of adlb_mimic1.c, line 13. -/
def NUM_TIMES : Int := 500

/-- The constant `MAX_BUF_SIZE` of adlb_mimic1.c, line 14: `(400 * 1024 * 1024)`, computed in
`int`. -/
def MAX_BUF_SIZE : Int := wrapInt (wrapInt (400 * 1024) * 1024)

/-- The constant `PUT_SIZE` of adlb_mimic1.c, line 15: `(1024 * 1024)`, computed in `int`. -/
def PUT_SIZE : Int := wrapInt (1024 * 1024)

/-- The guard of adlb_mimic1.c, lines 58-59: true when `MPI_Abort` is called, that is when
`(comm_size > (MAX_BUF_SIZE / PUT_SIZE)) || (comm_size <= 2)`. Both operands of the division
are positive. -/
def sizeGuardAborts (comm_size : Int) : Bool :=
  decide (comm_size > MAX_BUF_SIZE / PUT_SIZE) || decide (comm_size ≤ 2)

/-- The target displacement of the `MPI_Put` of an origin (line 115): `comm_rank * PUT_SIZE`,
computed in `int`. The put writes `PUT_SIZE` bytes from there. -/
def putOffset (comm_rank : Int) : Int := wrapInt (comm_rank * PUT_SIZE)

/-- The target displacement of the `MPI_Get` of the target (line 81):
`((by_rank + 1) * PUT_SIZE) - 1`, computed in `int`. The get reads one byte. -/
def checkOffset (by_rank : Int) : Int :=
  wrapInt (wrapInt (wrapInt (by_rank + 1) * PUT_SIZE) - 1)

/-- The offset in the window at which the `memset` of the target starts (line 90):
`by_rank * PUT_SIZE`, computed in `int`. The `memset` clears `PUT_SIZE` bytes from there. -/
def resetOffset (by_rank : Int) : Int := wrapInt (by_rank * PUT_SIZE)

/-- The memory that `RTWmapKill` works on: the pointer variables of type `RTWmap *` (the
holders), by address, and the state `σ` on which the kill routines act. -/
structure KillState (σ : Type) where
  holders : List (Option Nat)
  external : σ

/-- The macro `RTWmapKill(_rtw_map_dptr)` of the selected branch (lines 61-63, 75-77 and
91-93): call the kill routine of the branch on `*_rtw_map_dptr`, then store `NULL` in
`*_rtw_map_dptr`. The routines `RTWarrayKill`, `RTWCompMapKill` and `hshkill` are not under
`src/`; `kill` stands for them and maps the routine, its argument and the state before the
call to the state after it. The result is `none` when `_rtw_map_dptr` is `NULL` or does not
address a holder. -/
def RTWmapKill {σ : Type} (sel : MapSelection) (kill : MapFn → Option Nat → σ → σ)
    (_rtw_map_dptr : Option Nat) (s : KillState σ) : Option (KillState σ) :=
  match _rtw_map_dptr with
  | none => none
  | some d =>
    match s.holders[d]? with
    | none => none
    | some m =>
      some { holders := s.holders.set d none, external := kill sel.RTWmapKill m s.external }

/-- A kill routine that only records its call: the routine and the pointer it was given. -/
def logKill (f : MapFn) (m : Option Nat) (log : List (MapFn × Option Nat)) :
    List (MapFn × Option Nat) :=
  log ++ [(f, m)]

/-- Two calls of `RTWmapKill` on the same holder, one after the other. -/
def RTWmapKillTwice {σ : Type} (sel : MapSelection) (kill : MapFn → Option Nat → σ → σ)
    (_rtw_map_dptr : Option Nat) (s : KillState σ) : Option (KillState σ) :=
  match RTWmapKill sel kill _rtw_map_dptr s with
  | none => none
  | some s1 => RTWmapKill sel kill _rtw_map_dptr s1

/-- Values of `HYD_status`. The enumeration is declared in `hydra_base.h`, which is not under
`src/`; `process_mfile_token` names `HYD_SUCCESS` and `HYD_INTERNAL_ERROR`, and `other` stands
for the remaining values. -/
inductive HYD_status where
  | HYD_SUCCESS
  | HYD_INTERNAL_ERROR
  | other (code : Nat)
deriving DecidableEq

/-- The routines that `process_mfile_token` calls and that are not under `src/`:
`HYDU_strdup`, which gives a pointer to a copy of the token or `NULL`; `atoi`; and
`HYDU_add_to_node_list`, of which the status it returns is kept, as a function of the
hostname pointer, the process count and the entries passed before. -/
structure HydEnv where
  HYDU_strdup : String → Option String
  atoi : String → Int
  HYDU_add_to_node_list : Option String → Int → List (Option String × Int) → HYD_status

/-- The state that `process_mfile_token` keeps between calls: its static variables
`entry_count` and `hostname` (`none` is `NULL`), and `global_node_list`, held as the list of
the hostname pointers and process counts passed to `HYDU_add_to_node_list`, in call order. -/
structure SgeState where
  entry_count : Int
  hostname : Option String
  global_node_list : List (Option String × Int)
deriving DecidableEq

/-- The state before the first call: `entry_count` is initialised to 0, the static pointer
`hostname` and `global_node_list` to `NULL`. -/
def initialSgeState : SgeState :=
  { entry_count := 0, hostname := none, global_node_list := [] }

/-- The function `process_mfile_token(token, newline)` of rmk_sge_query_node_list.c, lines
13-45: the status it returns and the state it leaves. The macros `HYDU_ERR_SETANDJUMP` and
`HYDU_ERR_POP` are not under `src/`; the first sets the status and jumps to `fn_fail`, the
second jumps to `fn_fail` when the status is not `HYD_SUCCESS`. -/
def process_mfile_token (env : HydEnv) (token : String) (newline : Int) (s : SgeState) :
    HYD_status × SgeState :=
  let entry_count := wrapInt (s.entry_count + 1)
  if newline ≠ 0 then
    match s.hostname with
    | some _ => (HYD_status.HYD_INTERNAL_ERROR, { s with entry_count := 1 })
    | none =>
      (HYD_status.HYD_SUCCESS,
        { s with entry_count := 1, hostname := env.HYDU_strdup token })
  else if entry_count ≠ 2 then
    (HYD_status.HYD_SUCCESS, { s with entry_count := entry_count })
  else
    let num_procs := env.atoi token
    let status := env.HYDU_add_to_node_list s.hostname num_procs s.global_node_list
    let nodes := s.global_node_list ++ [(s.hostname, num_procs)]
    if status ≠ HYD_status.HYD_SUCCESS then
      (status, { s with entry_count := entry_count, global_node_list := nodes })
    else
      (HYD_status.HYD_SUCCESS,
        { entry_count := entry_count, hostname := none, global_node_list := nodes })

/-- Pass a stream of tokens, each with its `newline` flag, to `process_mfile_token`; the
result lists the returned statuses in call order and gives the final state. -/
def runTokens (env : HydEnv) : List (String × Int) → SgeState → List HYD_status × SgeState
  | [], s => ([], s)
  | (token, newline) :: rest, s =>
    let r := process_mfile_token env token newline s
    let q := runTokens env rest r.2
    (r.1 :: q.1, q.2)

/-- The tokens of one line as they are passed: the first with the flag `nl`, the others
with 0. -/
def lineTokens (nl : Int) : List String → List (String × Int)
  | [] => []
  | t :: ts => (t, nl) :: ts.map (fun x => (x, 0))

/-- The token stream of a hostfile given as its lines. -/
def streamOf (nl : Int) : List (List String) → List (String × Int)
  | [] => []
  | l :: ls => lineTokens nl l ++ streamOf nl ls

/-- The entry that a line stands for: its first token as hostname and `atoi` of its second
token as process count. -/
def entryOf (env : HydEnv) (l : List String) : Option String × Int :=
  (l[0]?, env.atoi (l[1]?.getD ""))

/-- The value of the leading decimal digits of a list of characters. -/
def digitsValue : List Char → Nat → Nat
  | [], acc => acc
  | c :: cs, acc =>
    if 48 ≤ c.toNat ∧ c.toNat ≤ 57 then digitsValue cs (acc * 10 + (c.toNat - 48)) else acc

/-- An environment in which `HYDU_strdup` gives a copy, `atoi` reads leading decimal digits
and `HYDU_add_to_node_list` succeeds. -/
def okHydEnv : HydEnv :=
  { HYDU_strdup := fun t => some t
    atoi := fun t => (digitsValue t.data 0 : Nat)
    HYDU_add_to_node_list := fun _ _ _ => HYD_status.HYD_SUCCESS }

/-- An environment that differs from `okHydEnv` in that `HYDU_add_to_node_list` fails. -/
def failingAddEnv : HydEnv :=
  { okHydEnv with HYDU_add_to_node_list := fun _ _ _ => HYD_status.other 1 }

/-- Modelled from the spec: the key of an event wait, the pair (target identity, reason code)
of section 3. The header declares `FG_notify_on_event(worldrank, action, ...)`, which names
the two parts, and `FG_yield_on_event(yld_event, ...)`, whose parameter type
`scheduler_event` comes from `threadlib_internal.h`, which is not under `src/`. -/
structure scheduler_event where
  worldrank : Int
  action : Int
deriving DecidableEq

/-- Modelled from the spec: the states of a proclet (section 3 and the state machine of
section 4.1): Runnable, Running, WaitingOnEvent(key) and the terminal Finished. -/
inductive ProcletState where
  | Runnable
  | Running
  | WaitingOnEvent (key : scheduler_event)
  | Finished
deriving DecidableEq

/-- Modelled from the spec: the roster of the scheduler of one OS process, the state of each
hosted proclet by fine-grain rank (section 4.1). -/
abbrev Roster := List ProcletState

/-- Modelled from the spec: `yield_on_event(key)` of section 4.1, whose code is not under
`src/` (the header only declares `FG_yield_on_event`): the calling proclet, which is the one
that is Running, transitions to WaitingOnEvent(key). The result is `none` when the caller is
not a Running proclet of the roster. -/
def FG_yield_on_event (yld_event : scheduler_event) (caller : Nat) (r : Roster) :
    Option Roster :=
  if r[caller]? = some ProcletState.Running
    then some (r.set caller (ProcletState.WaitingOnEvent yld_event))
    else none

/-- Modelled from the spec: the first proclet that waits on the key becomes Runnable; the
roster stays as it is when no proclet waits on the key. -/
def notifyKey (key : scheduler_event) : Roster → Roster
  | [] => []
  | st :: rest =>
    if st = ProcletState.WaitingOnEvent key then ProcletState.Runnable :: rest
    else st :: notifyKey key rest

/-- Modelled from the spec: `notify(key)` of section 4.1, whose code is not under `src/` (the
header only declares `FG_notify_on_event`): marks the proclet waiting on the key, if any, as
Runnable; a notification without a waiter is not queued. -/
def FG_notify_on_event (worldrank action : Int) (r : Roster) : Roster :=
  notifyKey { worldrank := worldrank, action := action } r

/-! ## Theorems -/

theorem withinReports_three : withinReports nullState 3 = some [3, 2, 1, 0] := by decide
theorem acrossReports_two : acrossReports nullState 2 = some [2, 1, 0] := by decide

theorem wrapInt_of_isInt {x : Int} (h : isInt x) : wrapInt x = x := by
  unfold isInt INT_MIN INT_MAX at h
  unfold wrapInt
  omega

theorem wrapInt_isInt (x : Int) : isInt (wrapInt x) := by
  unfold isInt INT_MIN INT_MAX wrapInt
  omega

theorem wrapInt_add_wrapInt (x y : Int) : wrapInt (wrapInt x + y) = wrapInt (x + y) := by
  unfold wrapInt
  omega

theorem lt_length_of_getElem? {h : IntHeap} {a : Nat} {c : Int} (hc : h[a]? = some c) :
    a < h.length := by
  rcases List.getElem?_eq_some.mp hc with ⟨hlt, _⟩
  exact hlt

theorem add_within_eq {s : CoState} {a : Nat} {c : Int}
    (hp : s.vars.ref_withinComm_countptr = some a) (hc : s.heap[a]? = some c) :
    MPIR_Comm_add_coshared_withinComm_ref s
      = some { s with heap := s.heap.set a (wrapInt (c + 1)) } := by
  have hlt := lt_length_of_getElem? hc
  simp [MPIR_Comm_add_coshared_withinComm_ref, load, store, hp, hc, hlt]

theorem release_within_eq {s : CoState} {a : Nat} {c : Int}
    (hp : s.vars.ref_withinComm_countptr = some a) (hc : s.heap[a]? = some c) :
    MPIR_Comm_release_coshared_withinComm_ref s
      = some ({ s with heap := s.heap.set a (wrapInt (c - 1)) }, wrapInt (c - 1)) := by
  have hlt := lt_length_of_getElem? hc
  simp [MPIR_Comm_release_coshared_withinComm_ref, load, store, hp, hc, hlt]

theorem add_across_eq {s : CoState} {a : Nat} {c : Int}
    (hp : s.vars.ref_acrossComm_countptr = some a) (hc : s.heap[a]? = some c) :
    MPIR_Comm_add_coshared_acrossComm_ref s
      = some { s with heap := s.heap.set a (wrapInt (c + 1)) } := by
  have hlt := lt_length_of_getElem? hc
  simp [MPIR_Comm_add_coshared_acrossComm_ref, load, store, hp, hc, hlt]

theorem release_across_eq {s : CoState} {a : Nat} {c : Int}
    (hp : s.vars.ref_acrossComm_countptr = some a) (hc : s.heap[a]? = some c) :
    MPIR_Comm_release_coshared_acrossComm_ref s
      = some ({ s with heap := s.heap.set a (wrapInt (c - 1)) }, wrapInt (c - 1)) := by
  have hlt := lt_length_of_getElem? hc
  simp [MPIR_Comm_release_coshared_acrossComm_ref, load, store, hp, hc, hlt]

theorem getElem?_set_self_of_some {h : IntHeap} {a : Nat} {c : Int} (hc : h[a]? = some c)
    (v : Int) : (h.set a v)[a]? = some v := by
  have hlt := lt_length_of_getElem? hc
  simp [hlt]

theorem addWithinN_spec (n : Nat) : ∀ (s : CoState) (a : Nat) (c : Int),
    s.vars.ref_withinComm_countptr = some a → s.heap[a]? = some (wrapInt c) →
    ∃ s1, addWithinN n s = some s1 ∧ s1.vars = s.vars ∧
      s1.heap[a]? = some (wrapInt (c + n)) := by
  induction n with
  | zero =>
    intro s a c hp hc
    exact ⟨s, rfl, rfl, by simpa using hc⟩
  | succ n ih =>
    intro s a c hp hc
    have hstep := add_within_eq hp hc
    obtain ⟨s1, h1, h2, h3⟩ := ih { s with heap := s.heap.set a (wrapInt (wrapInt c + 1)) }
      a (c + 1) hp (by rw [wrapInt_add_wrapInt]; exact getElem?_set_self_of_some hc _)
    refine ⟨s1, ?_, h2, ?_⟩
    · simp [addWithinN, hstep, h1]
    · rw [h3]; congr 2; push_cast; ring

theorem releaseWithinN_spec (n : Nat) : ∀ (s : CoState) (a : Nat) (c : Int),
    s.vars.ref_withinComm_countptr = some a → s.heap[a]? = some (wrapInt c) →
    ∃ s1, releaseWithinN n s
        = some (s1, (List.range n).map (fun (i : Nat) => wrapInt (c - 1 - (i : Int)))) ∧
      s1.vars = s.vars ∧ s1.heap[a]? = some (wrapInt (c - n)) := by
  induction n with
  | zero =>
    intro s a c hp hc
    exact ⟨s, rfl, rfl, by simpa using hc⟩
  | succ n ih =>
    intro s a c hp hc
    have hstep := release_within_eq hp hc
    obtain ⟨s1, h1, h2, h3⟩ := ih { s with heap := s.heap.set a (wrapInt (wrapInt c - 1)) }
      a (c - 1) hp (by
        have : wrapInt c - 1 = wrapInt c + (-1) := by ring
        rw [this, wrapInt_add_wrapInt]
        have : c + (-1) = c - 1 := by ring
        rw [this]
        exact getElem?_set_self_of_some hc _)
    refine ⟨s1, ?_, h2, ?_⟩
    · have hw : wrapInt (wrapInt c - 1) = wrapInt (c - 1) := by
        have : wrapInt c - 1 = wrapInt c + (-1) := by ring
        rw [this, wrapInt_add_wrapInt]; congr 1
      simp only [releaseWithinN, hstep, h1, List.range_succ_eq_map, List.map_cons,
        List.map_map]
      rw [hw]
      congr 3
      · simp
      · apply List.map_congr_left
        intro i _
        simp only [Function.comp]
        congr 1; push_cast; ring
    · rw [h3]; congr 2; push_cast; ring

theorem withinReports_eq (s0 : CoState) (k : Nat) :
    withinReports s0 k
      = some ((List.range (k + 1)).map (fun (i : Nat) => wrapInt ((k : Int) - (i : Int)))) := by
  have hp : (MPIR_Comm_init_coshared_withinComm_ref s0).vars.ref_withinComm_countptr
      = some s0.heap.length := rfl
  have hc : (MPIR_Comm_init_coshared_withinComm_ref s0).heap[s0.heap.length]?
      = some (wrapInt 1) := by
    simp [MPIR_Comm_init_coshared_withinComm_ref, MPIU_Malloc, wrapInt]
  obtain ⟨s1, h1, h2, h3⟩ := addWithinN_spec k _ _ _ hp hc
  obtain ⟨s2, h4, _, _⟩ := releaseWithinN_spec (k + 1) s1 _ _ (h2 ▸ hp) h3
  simp only [withinReports, h1, h4, Option.map_some']
  congr 1
  apply List.map_congr_left
  intro i _
  congr 1; ring

theorem addAcrossN_spec (n : Nat) : ∀ (s : CoState) (a : Nat) (c : Int),
    s.vars.ref_acrossComm_countptr = some a → s.heap[a]? = some (wrapInt c) →
    ∃ s1, addAcrossN n s = some s1 ∧ s1.vars = s.vars ∧
      s1.heap[a]? = some (wrapInt (c + n)) := by
  induction n with
  | zero =>
    intro s a c hp hc
    exact ⟨s, rfl, rfl, by simpa using hc⟩
  | succ n ih =>
    intro s a c hp hc
    have hstep := add_across_eq hp hc
    obtain ⟨s1, h1, h2, h3⟩ := ih { s with heap := s.heap.set a (wrapInt (wrapInt c + 1)) }
      a (c + 1) hp (by rw [wrapInt_add_wrapInt]; exact getElem?_set_self_of_some hc _)
    refine ⟨s1, ?_, h2, ?_⟩
    · simp [addAcrossN, hstep, h1]
    · rw [h3]; congr 2; push_cast; ring

theorem releaseAcrossN_spec (n : Nat) : ∀ (s : CoState) (a : Nat) (c : Int),
    s.vars.ref_acrossComm_countptr = some a → s.heap[a]? = some (wrapInt c) →
    ∃ s1, releaseAcrossN n s
        = some (s1, (List.range n).map (fun (i : Nat) => wrapInt (c - 1 - (i : Int)))) ∧
      s1.vars = s.vars ∧ s1.heap[a]? = some (wrapInt (c - n)) := by
  induction n with
  | zero =>
    intro s a c hp hc
    exact ⟨s, rfl, rfl, by simpa using hc⟩
  | succ n ih =>
    intro s a c hp hc
    have hstep := release_across_eq hp hc
    obtain ⟨s1, h1, h2, h3⟩ := ih { s with heap := s.heap.set a (wrapInt (wrapInt c - 1)) }
      a (c - 1) hp (by
        have : wrapInt c - 1 = wrapInt c + (-1) := by ring
        rw [this, wrapInt_add_wrapInt]
        have : c + (-1) = c - 1 := by ring
        rw [this]
        exact getElem?_set_self_of_some hc _)
    refine ⟨s1, ?_, h2, ?_⟩
    · have hw : wrapInt (wrapInt c - 1) = wrapInt (c - 1) := by
        have : wrapInt c - 1 = wrapInt c + (-1) := by ring
        rw [this, wrapInt_add_wrapInt]; congr 1
      simp only [releaseAcrossN, hstep, h1, List.range_succ_eq_map, List.map_cons,
        List.map_map]
      rw [hw]
      congr 3
      · simp
      · apply List.map_congr_left
        intro i _
        simp only [Function.comp]
        congr 1; push_cast; ring
    · rw [h3]; congr 2; push_cast; ring

theorem acrossReports_eq (s0 : CoState) (k : Nat) :
    acrossReports s0 k
      = some ((List.range (k + 1)).map (fun (i : Nat) => wrapInt ((k : Int) - (i : Int)))) := by
  have hp : (MPIR_Comm_init_coshared_acrossComm_ref s0).vars.ref_acrossComm_countptr
      = some s0.heap.length := rfl
  have hc : (MPIR_Comm_init_coshared_acrossComm_ref s0).heap[s0.heap.length]?
      = some (wrapInt 1) := by
    simp [MPIR_Comm_init_coshared_acrossComm_ref, MPIU_Malloc, wrapInt]
  obtain ⟨s1, h1, h2, h3⟩ := addAcrossN_spec k _ _ _ hp hc
  obtain ⟨s2, h4, _, _⟩ := releaseAcrossN_spec (k + 1) s1 _ _ (h2 ▸ hp) h3
  simp only [acrossReports, h1, h4, Option.map_some']
  congr 1
  apply List.map_congr_left
  intro i _
  congr 1; ring

/-- C1 (as amended): for each of the two counters and every `k` whose largest count `1 + k`
fits a C `int`, init, then `k` adds, then `k + 1` releases make the `j`-th release report
`k + 1 - j`; the `(k + 1)`-th release reports 0, no earlier release reports 0, and no release
reports a negative value. -/
theorem refcount_release_sequence (s0 : CoState) (k : Nat) (hk : (k : Int) + 1 ≤ INT_MAX) :
    ∃ rs : List Int,
      withinReports s0 k = some rs ∧ acrossReports s0 k = some rs ∧
      rs.length = k + 1 ∧
      (∀ j : Nat, 1 ≤ j → j ≤ k + 1 → rs[j - 1]? = some ((k : Int) + 1 - (j : Int))) ∧
      rs[k]? = some 0 ∧
      (∀ j : Nat, 1 ≤ j → j ≤ k → rs[j - 1]? ≠ some 0) ∧
      (∀ v ∈ rs, 0 ≤ v) := by
  have hval : ∀ i : Nat, i < k + 1 → wrapInt ((k : Int) - (i : Int)) = (k : Int) - (i : Int) := by
    intro i hi
    apply wrapInt_of_isInt
    unfold isInt INT_MIN
    unfold INT_MAX at *
    omega
  have hget : ∀ i : Nat, i < k + 1 →
      ((List.range (k + 1)).map (fun (i : Nat) => wrapInt ((k : Int) - (i : Int))))[i]?
        = some ((k : Int) - (i : Int)) := by
    intro i hi
    rw [List.getElem?_map, List.getElem?_range hi]
    simp [hval i hi]
  refine ⟨_, withinReports_eq s0 k, acrossReports_eq s0 k, by simp, ?_, ?_, ?_, ?_⟩
  · intro j h1 h2
    rw [hget (j - 1) (by omega)]
    congr 1
    omega
  · rw [hget k (by omega)]; simp
  · intro j h1 h2
    rw [hget (j - 1) (by omega)]
    intro h
    have := Option.some.inj h
    omega
  · intro v hv
    rcases List.mem_map.mp hv with ⟨i, hi, rfl⟩
    rw [hval i (List.mem_range.mp hi)]
    have := List.mem_range.mp hi
    omega

/-- Witness of C1 at `k = 3` from the record with all pointers `NULL`. -/
theorem refcount_release_sequence_witness :
    ((3 : Nat) : Int) + 1 ≤ INT_MAX ∧
    ∃ rs : List Int,
      withinReports nullState 3 = some rs ∧ acrossReports nullState 3 = some rs ∧
      rs.length = 3 + 1 ∧
      (∀ j : Nat, 1 ≤ j → j ≤ 3 + 1 → rs[j - 1]? = some (((3 : Nat) : Int) + 1 - (j : Int))) ∧
      rs[3]? = some 0 ∧
      (∀ j : Nat, 1 ≤ j → j ≤ 3 → rs[j - 1]? ≠ some 0) ∧
      (∀ v ∈ rs, 0 ≤ v) :=
  ⟨by decide, refcount_release_sequence nullState 3 (by decide)⟩

/-- C1 fails as stated at `k = 2^31`: after init and `2^31` adds the first release reports
`-2^31`, a negative value, where the claim says `k + 1 - 1 = 2^31`. -/
theorem refcount_release_sequence_overflow :
    ∃ rs : List Int,
      withinReports nullState 2147483648 = some rs ∧ rs[0]? = some (-2147483648) ∧
      acrossReports nullState 2147483648 = some rs := by
  refine ⟨_, withinReports_eq nullState 2147483648, ?_, acrossReports_eq nullState 2147483648⟩
  rw [List.getElem?_map, List.getElem?_range (by omega)]
  simp [wrapInt]

/-- C2 (as amended): for every stored counter value `c` of a C `int` other than `INT_MIN`
(in particular `c = 0`), each release macro stores `c - 1` in the counter, leaves everything
else as it was and writes that same `c - 1` to `*inuse_ptr`; nothing is rejected or
clamped. -/
theorem release_post_decrement (s : CoState) (a : Nat) (c : Int) (hc : s.heap[a]? = some c)
    (hr : isInt c) (hm : c ≠ INT_MIN) :
    (s.vars.ref_withinComm_countptr = some a →
      MPIR_Comm_release_coshared_withinComm_ref s
        = some ({ s with heap := s.heap.set a (c - 1) }, c - 1)) ∧
    (s.vars.ref_acrossComm_countptr = some a →
      MPIR_Comm_release_coshared_acrossComm_ref s
        = some ({ s with heap := s.heap.set a (c - 1) }, c - 1)) ∧
    (s.heap.set a (c - 1))[a]? = some (c - 1) := by
  have hw : wrapInt (c - 1) = c - 1 := by
    apply wrapInt_of_isInt
    unfold isInt INT_MIN INT_MAX at *
    omega
  refine ⟨?_, ?_, getElem?_set_self_of_some hc _⟩
  · intro hp
    rw [release_within_eq hp hc, hw]
  · intro hp
    rw [release_across_eq hp hc, hw]

/-- Witness of C2: releasing the within counter that is already 0 reports -1 and stores
-1. -/
theorem release_post_decrement_witness :
    (twoCells 0 5).heap[0]? = some 0 ∧ isInt 0 ∧ (0 : Int) ≠ INT_MIN ∧
    (twoCells 0 5).vars.ref_withinComm_countptr = some 0 ∧
    MPIR_Comm_release_coshared_withinComm_ref (twoCells 0 5)
      = some ({ twoCells 0 5 with heap := [-1, 5] }, -1) :=
  ⟨rfl, by decide, by decide, rfl,
    (release_post_decrement (twoCells 0 5) 0 0 rfl (by decide) (by decide)).1 rfl⟩

/-- C2 fails as stated at `c = INT_MIN`: the release stores and reports `INT_MAX`, not
`c - 1`. -/
theorem release_at_INT_MIN :
    MPIR_Comm_release_coshared_withinComm_ref (twoCells INT_MIN INT_MIN)
      = some ({ twoCells INT_MIN INT_MIN with heap := [INT_MAX, INT_MIN] }, INT_MAX) ∧
    MPIR_Comm_release_coshared_acrossComm_ref (twoCells INT_MIN INT_MIN)
      = some ({ twoCells INT_MIN INT_MIN with heap := [INT_MIN, INT_MAX] }, INT_MAX) ∧
    INT_MAX ≠ INT_MIN - 1 := by
  decide

theorem traceAll_sample : traceAll [RefOp.add, RefOp.release, RefOp.release]
    (MPIR_Comm_init_coshared_all_ref nullState)
  = some [(⟨⟨some 0, some 1, none, none⟩, [2, 2]⟩, none),
          (⟨⟨some 0, some 1, none, none⟩, [1, 1]⟩, some (1, 1)),
          (⟨⟨some 0, some 1, none, none⟩, [0, 0]⟩, some (0, 0))] := by decide

theorem add_all_eq {s : CoState} {a b : Nat} {x y : Int}
    (hw : s.vars.ref_withinComm_countptr = some a) (hx : s.heap[a]? = some x)
    (ha : s.vars.ref_acrossComm_countptr = some b) (hy : s.heap[b]? = some y)
    (hab : a ≠ b) :
    MPIR_Comm_add_coshared_all_ref s
      = some { s with heap := (s.heap.set a (wrapInt (x + 1))).set b (wrapInt (y + 1)) } := by
  have h1 := add_within_eq hw hx
  have hy1 : (s.heap.set a (wrapInt (x + 1)))[b]? = some y := by
    rw [List.getElem?_set_ne hab]; exact hy
  have h2 := add_across_eq (s := { s with heap := s.heap.set a (wrapInt (x + 1)) }) ha hy1
  simp only [MPIR_Comm_add_coshared_all_ref, h1, h2]

theorem release_all_eq {s : CoState} {a b : Nat} {x y : Int}
    (hw : s.vars.ref_withinComm_countptr = some a) (hx : s.heap[a]? = some x)
    (ha : s.vars.ref_acrossComm_countptr = some b) (hy : s.heap[b]? = some y)
    (hab : a ≠ b) :
    MPIR_Comm_release_coshared_all_ref s
      = some ({ s with heap := (s.heap.set a (wrapInt (x - 1))).set b (wrapInt (y - 1)) },
          wrapInt (x - 1), wrapInt (y - 1)) := by
  have h1 := release_within_eq hw hx
  have hy1 : (s.heap.set a (wrapInt (x - 1)))[b]? = some y := by
    rw [List.getElem?_set_ne hab]; exact hy
  have h2 := release_across_eq (s := { s with heap := s.heap.set a (wrapInt (x - 1)) }) ha hy1
  simp only [MPIR_Comm_release_coshared_all_ref, h1, h2]

theorem wrapInt_sub_one (c : Int) : wrapInt (wrapInt c - 1) = wrapInt (c - 1) := by
  unfold wrapInt
  omega

/-- Both cells after one combined call, and what the call reports. -/
theorem stepAll_spec {s : CoState} {a b : Nat} {c : Int} (op : RefOp)
    (hw : s.vars.ref_withinComm_countptr = some a) (hx : s.heap[a]? = some (wrapInt c))
    (ha : s.vars.ref_acrossComm_countptr = some b) (hy : s.heap[b]? = some (wrapInt c))
    (hab : a ≠ b) :
    ∃ s1 r, stepAll op s = some (s1, r) ∧ s1.vars = s.vars ∧
      s1.heap[a]? = some (wrapInt (c + balance [op])) ∧
      s1.heap[b]? = some (wrapInt (c + balance [op])) ∧
      r = (if op = RefOp.release
            then some (wrapInt (c + balance [op]), wrapInt (c + balance [op])) else none) := by
  have hla := lt_length_of_getElem? hx
  have hlb := lt_length_of_getElem? hy
  cases op with
  | add =>
    refine ⟨{ s with heap :=
        (s.heap.set a (wrapInt (wrapInt c + 1))).set b (wrapInt (wrapInt c + 1)) },
      none, ?_, rfl, ?_, ?_, by simp⟩
    · simp only [stepAll, add_all_eq hw hx ha hy hab]
    · simp [balance, wrapInt_add_wrapInt, List.getElem?_set_ne hab.symm, hla]
    · simp [balance, wrapInt_add_wrapInt, hlb]
  | release =>
    have hb : c + balance [RefOp.release] = c - 1 := by simp [balance]; ring
    rw [hb]
    refine ⟨{ s with heap :=
        (s.heap.set a (wrapInt (wrapInt c - 1))).set b (wrapInt (wrapInt c - 1)) },
      some (wrapInt (wrapInt c - 1), wrapInt (wrapInt c - 1)), ?_, rfl, ?_, ?_, ?_⟩
    · simp only [stepAll, release_all_eq hw hx ha hy hab]
    · simp [wrapInt_sub_one, List.getElem?_set_ne hab.symm, hla]
    · simp [wrapInt_sub_one, hlb]
    · simp [wrapInt_sub_one]

theorem balance_cons (op : RefOp) (ops : List RefOp) :
    balance (op :: ops) = balance [op] + balance ops := by
  cases op <;> simp [balance]

theorem balance_append (l1 l2 : List RefOp) :
    balance (l1 ++ l2) = balance l1 + balance l2 := by
  induction l1 with
  | nil => simp [balance]
  | cons op l ih =>
    rw [List.cons_append, balance_cons, ih, balance_cons op l]; ring

theorem balance_eq_count (l : List RefOp) :
    balance l = (l.count RefOp.add : Int) - (l.count RefOp.release : Int) := by
  induction l with
  | nil => simp [balance]
  | cons op l ih =>
    rw [balance_cons, ih]
    cases op <;> simp [balance, List.count_cons] <;> ring

theorem balance_take_le (l : List RefOp) (n : Nat) :
    balance (l.take n) ≤ (l.count RefOp.add : Int) := by
  rw [balance_eq_count]
  have h : (l.take n).count RefOp.add ≤ l.count RefOp.add :=
    (List.take_sublist n l).count_le RefOp.add
  omega

/-- The trace of a run from a state whose two count pointers address different cells that
hold the same value `c`: after call `i` both cells hold `c` plus the balance of the calls made
so far, and a release reports that value through both outputs. -/
theorem traceAll_spec (ops : List RefOp) : ∀ (s : CoState) (a b : Nat) (c : Int),
    s.vars.ref_withinComm_countptr = some a → s.heap[a]? = some (wrapInt c) →
    s.vars.ref_acrossComm_countptr = some b → s.heap[b]? = some (wrapInt c) → a ≠ b →
    ∃ t, traceAll ops s = some t ∧ t.length = ops.length ∧
      ∀ i : Nat, i < ops.length → ∃ st,
        t[i]? = some (st,
          if ops[i]? = some RefOp.release
            then some (wrapInt (c + balance (ops.take (i + 1))),
                       wrapInt (c + balance (ops.take (i + 1))))
            else none) ∧
        st.vars = s.vars ∧
        st.heap[a]? = some (wrapInt (c + balance (ops.take (i + 1)))) ∧
        st.heap[b]? = some (wrapInt (c + balance (ops.take (i + 1)))) := by
  induction ops with
  | nil =>
    intro s a b c _ _ _ _ _
    exact ⟨[], rfl, rfl, fun i hi => absurd hi (by simp)⟩
  | cons op rest ih =>
    intro s a b c hw hx ha hy hab
    obtain ⟨s1, r, hstep, hv, h1a, h1b, hr⟩ := stepAll_spec op hw hx ha hy hab
    obtain ⟨t, ht, hlen, hall⟩ := ih s1 a b (c + balance [op]) (hv ▸ hw) h1a (hv ▸ ha) h1b hab
    refine ⟨(s1, r) :: t, ?_, by simp [hlen], ?_⟩
    · simp only [traceAll, hstep, ht]
    · intro i hi
      cases i with
      | zero =>
        refine ⟨s1, ?_, hv, ?_, ?_⟩
        · rw [hr]; cases op <;> simp
        · simpa using h1a
        · simpa using h1b
      | succ i =>
        have hi2 : i < rest.length := by simpa using hi
        obtain ⟨st, h1, h2, h3, h4⟩ := hall i hi2
        have hb : c + balance ((op :: rest).take (i + 1 + 1))
            = c + balance [op] + balance (rest.take (i + 1)) := by
          rw [List.take_succ_cons, balance_cons]; ring
        refine ⟨st, ?_, h2.trans hv, ?_, ?_⟩
        · rw [hb]; simpa using h1
        · rw [hb]; exact h3
        · rw [hb]; exact h4

theorem init_all_cells (s0 : CoState) :
    (MPIR_Comm_init_coshared_all_ref s0).vars.ref_withinComm_countptr = some s0.heap.length ∧
    (MPIR_Comm_init_coshared_all_ref s0).vars.ref_acrossComm_countptr
      = some (s0.heap.length + 1) ∧
    (MPIR_Comm_init_coshared_all_ref s0).heap[s0.heap.length]? = some (wrapInt 1) ∧
    (MPIR_Comm_init_coshared_all_ref s0).heap[s0.heap.length + 1]? = some (wrapInt 1) := by
  have h1 : wrapInt 1 = 1 := by decide
  rw [h1]
  simp [MPIR_Comm_init_coshared_all_ref, MPIR_Comm_init_coshared_acrossComm_ref,
    MPIR_Comm_init_coshared_withinComm_ref, MPIU_Malloc, List.getElem?_append]
  constructor <;> rw [List.getElem_append_right (by omega)] <;> simp

/-- C3 (as amended): a record created with `MPIR_Comm_init_coshared_all_ref` has both
counters at 1; from it, every sequence of `MPIR_Comm_add_coshared_all_ref` and
`MPIR_Comm_release_coshared_all_ref` calls runs to its end, after every call the two counters
hold the same value, and every release reports the same value through both output pointers.
If the sequence has `k` adds and `k + 1` releases, `k + 1` fits a C `int` and the calls are
well paired (no release before the last one gives back more references than were added),
then the last call is a release that reports 0 for both counters and no other call reports 0
for either. -/
theorem coshared_all_lockstep (s0 : CoState) (ops : List RefOp) :
    (MPIR_Comm_init_coshared_all_ref s0).withinCount = some 1 ∧
    (MPIR_Comm_init_coshared_all_ref s0).acrossCount = some 1 ∧
    ∃ t, traceAll ops (MPIR_Comm_init_coshared_all_ref s0) = some t ∧
      t.length = ops.length ∧
      (∀ st r, (st, r) ∈ t → st.withinCount = st.acrossCount ∧ st.withinCount ≠ none) ∧
      (∀ st w a, (st, some (w, a)) ∈ t → w = a) ∧
      (∀ k : Nat, ops.count RefOp.add = k → ops.count RefOp.release = k + 1 →
        (k : Int) + 1 ≤ INT_MAX → wellPaired ops →
        ops[ops.length - 1]? = some RefOp.release ∧
        (∃ st, t[ops.length - 1]? = some (st, some (0, 0))) ∧
        ∀ i : Nat, i + 1 < ops.length → ∀ st w a,
          t[i]? = some (st, some (w, a)) → w ≠ 0 ∧ a ≠ 0) := by
  obtain ⟨hw, ha, hx, hy⟩ := init_all_cells s0
  obtain ⟨t, ht, hlen, hall⟩ := traceAll_spec ops _ _ _ 1 hw hx ha hy (by omega)
  have h1 : wrapInt 1 = 1 := by decide
  refine ⟨by simp only [CoState.withinCount, load, hw, hx, h1],
    by simp only [CoState.acrossCount, load, ha, hy, h1], t, ht, hlen, ?_, ?_, ?_⟩
  · intro st r hmem
    obtain ⟨i, hi⟩ := List.mem_iff_getElem?.mp hmem
    have hil : i < ops.length := by
      rw [← hlen]
      exact (List.getElem?_eq_some.mp hi).1
    obtain ⟨st1, h1, h2, h3, h4⟩ := hall i hil
    rw [hi] at h1
    have hst : st = st1 := (Prod.mk.inj (Option.some.inj h1)).1
    subst hst
    simp only [CoState.withinCount, CoState.acrossCount, load, h2, hw, ha, h3, h4]
    simp
  · intro st w a hmem
    obtain ⟨i, hi⟩ := List.mem_iff_getElem?.mp hmem
    have hil : i < ops.length := by
      rw [← hlen]
      exact (List.getElem?_eq_some.mp hi).1
    obtain ⟨st1, h1, _⟩ := hall i hil
    rw [hi] at h1
    have hr := (Prod.mk.inj (Option.some.inj h1)).2
    by_cases hop : ops[i]? = some RefOp.release
    · rw [if_pos hop] at hr
      have := Prod.mk.inj (Option.some.inj hr)
      rw [this.1, this.2]
    · rw [if_neg hop] at hr
      exact absurd hr (by simp)
  · intro k hadd hrel hk hwp
    have hne : ops ≠ [] := by
      intro h
      rw [h] at hrel
      simp at hrel
    have hpos : 0 < ops.length := List.length_pos.mpr hne
    have htot : balance ops = -1 := by
      rw [balance_eq_count, hadd, hrel]; push_cast; ring
    have hsplit : ops.take (ops.length - 1) ++ [ops.getLast hne] = ops := by
      rw [← List.dropLast_eq_take]
      exact List.dropLast_append_getLast hne
    have hbal := balance_append (ops.take (ops.length - 1)) [ops.getLast hne]
    rw [hsplit, htot] at hbal
    have hpre := hwp (ops.length - 1) (by omega)
    have hlast : ops.getLast hne = RefOp.release := by
      cases hl : ops.getLast hne with
      | release => rfl
      | add =>
        rw [hl] at hbal
        simp [balance] at hbal
        omega
    have hlast2 : ops[ops.length - 1]? = some RefOp.release := by
      rw [← hlast, List.getLast_eq_getElem, List.getElem?_eq_getElem]
    have hfull : ops.take (ops.length - 1 + 1) = ops := by
      rw [Nat.sub_add_cancel hpos, List.take_length]
    refine ⟨hlast2, ?_, ?_⟩
    · obtain ⟨st, h1, _⟩ := hall (ops.length - 1) (by omega)
      refine ⟨st, ?_⟩
      rw [h1, if_pos hlast2, hfull, htot]
      rfl
    · intro i hi st w a hti
      obtain ⟨st1, h1, _⟩ := hall i (by omega)
      rw [hti] at h1
      have hr := (Prod.mk.inj (Option.some.inj h1)).2
      have hlo := hwp (i + 1) hi
      have hhi := balance_take_le ops (i + 1)
      rw [hadd] at hhi
      have hval : wrapInt (1 + balance (ops.take (i + 1)))
          = 1 + balance (ops.take (i + 1)) := by
        apply wrapInt_of_isInt
        unfold isInt INT_MIN
        unfold INT_MAX at *
        omega
      by_cases hop : ops[i]? = some RefOp.release
      · rw [if_pos hop, hval] at hr
        have := Prod.mk.inj (Option.some.inj hr)
        rw [this.1, this.2]
        omega
      · rw [if_neg hop] at hr
        exact absurd hr (by simp)

/-- Witness of C3: add, release, add, release, release from a fresh record. -/
theorem coshared_all_lockstep_witness :
    [RefOp.add, RefOp.release, RefOp.add, RefOp.release, RefOp.release].count RefOp.add = 2 ∧
    [RefOp.add, RefOp.release, RefOp.add, RefOp.release, RefOp.release].count RefOp.release
      = 2 + 1 ∧
    ((2 : Nat) : Int) + 1 ≤ INT_MAX ∧
    wellPaired [RefOp.add, RefOp.release, RefOp.add, RefOp.release, RefOp.release] ∧
    ∃ t, traceAll [RefOp.add, RefOp.release, RefOp.add, RefOp.release, RefOp.release]
        (MPIR_Comm_init_coshared_all_ref nullState) = some t ∧
      (∃ st, t[4]? = some (st, some (0, 0))) ∧
      ∀ i : Nat, i + 1 < 5 → ∀ st w a, t[i]? = some (st, some (w, a)) → w ≠ 0 ∧ a ≠ 0 := by
  refine ⟨by decide, by decide, by decide, by decide, ?_⟩
  obtain ⟨_, _, t, ht, _, _, _, h⟩ := coshared_all_lockstep nullState
    [RefOp.add, RefOp.release, RefOp.add, RefOp.release, RefOp.release]
  obtain ⟨_, h2, h3⟩ := h 2 (by decide) (by decide) (by decide) (by decide)
  exact ⟨t, ht, h2, h3⟩

theorem balance_replicate_add (k : Nat) : balance (List.replicate k RefOp.add) = k := by
  induction k with
  | zero => simp [balance]
  | succ n ih => rw [List.replicate_succ, balance_cons, ih]; simp [balance]; ring

/-- After init and `k` combined adds, the first combined release reports `wrapInt k` through
both outputs. -/
theorem first_release_after_adds (s0 : CoState) (k : Nat) :
    ∃ t st, traceAll (List.replicate k RefOp.add ++ List.replicate (k + 1) RefOp.release)
        (MPIR_Comm_init_coshared_all_ref s0) = some t ∧
      t[k]? = some (st, some (wrapInt k, wrapInt k)) := by
  obtain ⟨hw, ha, hx, hy⟩ := init_all_cells s0
  obtain ⟨t, ht, _, hall⟩ := traceAll_spec
    (List.replicate k RefOp.add ++ List.replicate (k + 1) RefOp.release) _ _ _ 1 hw hx ha hy
    (by omega)
  obtain ⟨st, h1, _⟩ := hall k (by simp)
  have hop : (List.replicate k RefOp.add ++ List.replicate (k + 1) RefOp.release)[k]?
      = some RefOp.release := by
    rw [List.getElem?_append_right (by simp)]
    simp [List.replicate_succ]
  have htake : (List.replicate k RefOp.add ++ List.replicate (k + 1) RefOp.release).take (k + 1)
      = List.replicate k RefOp.add ++ [RefOp.release] := by
    rw [List.take_append_eq_append_take]
    simp [List.replicate_succ]
  have hb : (1 : Int) + balance (List.replicate k RefOp.add ++ [RefOp.release]) = k := by
    rw [balance_append, balance_replicate_add]; simp [balance]
  rw [if_pos hop, htake, hb] at h1
  exact ⟨t, st, ht, h1⟩

/-- C3 fails as stated. With one add and two releases in the order release, add, release,
both releases report 0 for both counters. With `2^32` adds followed by `2^32 + 1` releases,
the first release already reports 0 for both counters. -/
theorem coshared_all_two_zero_reports :
    (traceAll [RefOp.release, RefOp.add, RefOp.release]
        (MPIR_Comm_init_coshared_all_ref nullState)).map (List.map Prod.snd)
      = some [some (0, 0), none, some (0, 0)] ∧
    ∃ t st, traceAll (List.replicate 4294967296 RefOp.add
          ++ List.replicate (4294967296 + 1) RefOp.release)
        (MPIR_Comm_init_coshared_all_ref nullState) = some t ∧
      t[4294967296]? = some (st, some (0, 0)) := by
  refine ⟨by decide, ?_⟩
  obtain ⟨t, st, h1, h2⟩ := first_release_after_adds nullState 4294967296
  have hz : wrapInt ((4294967296 : Nat) : Int) = 0 := by decide
  rw [hz] at h2
  exact ⟨t, st, h1, h2⟩

theorem load_malloc_set {h : IntHeap} {p : IntPtr} (hp : allocated h p) (v : Int) :
    load ((MPIU_Malloc h).2.set (MPIU_Malloc h).1 v) p = load h p := by
  cases p with
  | none => rfl
  | some b =>
    have hb : b < h.length := hp b rfl
    have hne : h.length ≠ b := by omega
    simp only [load, MPIU_Malloc]
    rw [List.getElem?_set_ne hne, List.getElem?_append_left hb]

theorem load_store_other {h h1 : IntHeap} {p q : IntPtr} {v : Int}
    (hs : store h p v = some h1) (hpq : ∀ a, p = some a → q ≠ some a) :
    load h1 q = load h q := by
  cases p with
  | none => simp [store] at hs
  | some a =>
    cases q with
    | none => rfl
    | some b =>
      have hne : a ≠ b := fun h => hpq a rfl (by rw [h])
      simp only [store] at hs
      split at hs
      · have h2 := Option.some.inj hs
        subst h2
        simp only [load]
        rw [List.getElem?_set_ne hne]
      · exact absurd hs (by simp)

theorem add_within_frame {s s1 : CoState} (hna : ¬ aliased s)
    (h : MPIR_Comm_add_coshared_withinComm_ref s = some s1) : frameAcross s s1 := by
  unfold MPIR_Comm_add_coshared_withinComm_ref at h
  split at h
  · exact absurd h (by simp)
  · split at h
    · exact absurd h (by simp)
    · rename_i c _ h1 hst
      have := Option.some.inj h
      subst this
      refine ⟨rfl, ?_, rfl, rfl⟩
      exact load_store_other hst (fun a ha hb => hna ⟨a, ha, hb⟩)

theorem release_within_frame {s s1 : CoState} {v : Int} (hna : ¬ aliased s)
    (h : MPIR_Comm_release_coshared_withinComm_ref s = some (s1, v)) : frameAcross s s1 := by
  unfold MPIR_Comm_release_coshared_withinComm_ref at h
  split at h
  · exact absurd h (by simp)
  · split at h
    · exact absurd h (by simp)
    · rename_i c _ h1 hst
      have := (Prod.mk.inj (Option.some.inj h)).1
      subst this
      refine ⟨rfl, ?_, rfl, rfl⟩
      exact load_store_other hst (fun a ha hb => hna ⟨a, ha, hb⟩)

theorem add_across_frame {s s1 : CoState} (hna : ¬ aliased s)
    (h : MPIR_Comm_add_coshared_acrossComm_ref s = some s1) : frameWithin s s1 := by
  unfold MPIR_Comm_add_coshared_acrossComm_ref at h
  split at h
  · exact absurd h (by simp)
  · split at h
    · exact absurd h (by simp)
    · rename_i c _ h1 hst
      have := Option.some.inj h
      subst this
      refine ⟨rfl, ?_, rfl, rfl⟩
      exact load_store_other hst (fun a ha hb => hna ⟨a, hb, ha⟩)

theorem release_across_frame {s s1 : CoState} {v : Int} (hna : ¬ aliased s)
    (h : MPIR_Comm_release_coshared_acrossComm_ref s = some (s1, v)) : frameWithin s s1 := by
  unfold MPIR_Comm_release_coshared_acrossComm_ref at h
  split at h
  · exact absurd h (by simp)
  · split at h
    · exact absurd h (by simp)
    · rename_i c _ h1 hst
      have := (Prod.mk.inj (Option.some.inj h)).1
      subst this
      refine ⟨rfl, ?_, rfl, rfl⟩
      exact load_store_other hst (fun a ha hb => hna ⟨a, hb, ha⟩)

/-- C4 (as amended): the init macro of one counter leaves the other counter, `rtw_map` and
`co_barrier_vars` unchanged whenever the other count pointer is `NULL` or addresses an
allocated cell; the add and release macros of one counter leave the other counter, `rtw_map`
and `co_barrier_vars` unchanged whenever the two count pointers do not address the same
cell, and they do run whenever their own pointer addresses an allocated cell. -/
theorem counters_independent (s : CoState) :
    (allocated s.heap s.vars.ref_acrossComm_countptr →
      frameAcross s (MPIR_Comm_init_coshared_withinComm_ref s)) ∧
    (allocated s.heap s.vars.ref_withinComm_countptr →
      frameWithin s (MPIR_Comm_init_coshared_acrossComm_ref s)) ∧
    (¬ aliased s →
      (∀ s1, MPIR_Comm_add_coshared_withinComm_ref s = some s1 → frameAcross s s1) ∧
      (∀ s1 v, MPIR_Comm_release_coshared_withinComm_ref s = some (s1, v) → frameAcross s s1) ∧
      (∀ s1, MPIR_Comm_add_coshared_acrossComm_ref s = some s1 → frameWithin s s1) ∧
      (∀ s1 v, MPIR_Comm_release_coshared_acrossComm_ref s = some (s1, v) →
        frameWithin s s1)) ∧
    (∀ a, s.vars.ref_withinComm_countptr = some a → a < s.heap.length →
      MPIR_Comm_add_coshared_withinComm_ref s ≠ none ∧
      MPIR_Comm_release_coshared_withinComm_ref s ≠ none) ∧
    (∀ a, s.vars.ref_acrossComm_countptr = some a → a < s.heap.length →
      MPIR_Comm_add_coshared_acrossComm_ref s ≠ none ∧
      MPIR_Comm_release_coshared_acrossComm_ref s ≠ none) := by
  refine ⟨?_, ?_, ?_, ?_, ?_⟩
  · intro hal
    exact ⟨rfl, load_malloc_set hal 1, rfl, rfl⟩
  · intro hal
    exact ⟨rfl, load_malloc_set hal 1, rfl, rfl⟩
  · intro hna
    exact ⟨fun _ h => add_within_frame hna h, fun _ _ h => release_within_frame hna h,
      fun _ h => add_across_frame hna h, fun _ _ h => release_across_frame hna h⟩
  · intro a hp hlt
    have hc : s.heap[a]? = some (s.heap.get ⟨a, hlt⟩) := List.getElem?_eq_getElem hlt
    rw [add_within_eq hp hc, release_within_eq hp hc]
    simp
  · intro a hp hlt
    have hc : s.heap[a]? = some (s.heap.get ⟨a, hlt⟩) := List.getElem?_eq_getElem hlt
    rw [add_across_eq hp hc, release_across_eq hp hc]
    simp

theorem twoCells_not_aliased (w x : Int) : ¬ aliased (twoCells w x) := by
  rintro ⟨a, h1, h2⟩
  simp [twoCells] at h1 h2
  omega

theorem twoCells_allocated (w x : Int) :
    allocated (twoCells w x).heap (twoCells w x).vars.ref_acrossComm_countptr ∧
    allocated (twoCells w x).heap (twoCells w x).vars.ref_withinComm_countptr := by
  constructor <;> intro a h <;> simp [twoCells] at h ⊢ <;> omega

/-- Witness of C4 on the record whose counters are the separate cells holding 3 and 5. -/
theorem counters_independent_witness :
    allocated (twoCells 3 5).heap (twoCells 3 5).vars.ref_acrossComm_countptr ∧
    ¬ aliased (twoCells 3 5) ∧
    frameAcross (twoCells 3 5) (MPIR_Comm_init_coshared_withinComm_ref (twoCells 3 5)) ∧
    (∀ s1, MPIR_Comm_add_coshared_withinComm_ref (twoCells 3 5) = some s1 →
      frameAcross (twoCells 3 5) s1) ∧
    (∀ s1 v, MPIR_Comm_release_coshared_acrossComm_ref (twoCells 3 5) = some (s1, v) →
      frameWithin (twoCells 3 5) s1) ∧
    MPIR_Comm_add_coshared_withinComm_ref (twoCells 3 5) ≠ none :=
  ⟨(twoCells_allocated 3 5).1, twoCells_not_aliased 3 5,
    (counters_independent (twoCells 3 5)).1 (twoCells_allocated 3 5).1,
    ((counters_independent (twoCells 3 5)).2.2.1 (twoCells_not_aliased 3 5)).1,
    ((counters_independent (twoCells 3 5)).2.2.1 (twoCells_not_aliased 3 5)).2.2.2,
    ((counters_independent (twoCells 3 5)).2.2.2.1 0 rfl (by decide)).1⟩

/-- C4 fails as stated on a record whose two count pointers address the same cell: the
within add and release macros change the across counter, and the across add and release
macros change the within counter. -/
theorem counters_aliased_interfere :
    (sharedCell 1).acrossCount = some 1 ∧ (sharedCell 1).withinCount = some 1 ∧
    (MPIR_Comm_add_coshared_withinComm_ref (sharedCell 1)).map CoState.acrossCount
      = some (some 2) ∧
    (MPIR_Comm_release_coshared_withinComm_ref (sharedCell 1)).map
      (fun r => r.1.acrossCount) = some (some 0) ∧
    (MPIR_Comm_add_coshared_acrossComm_ref (sharedCell 1)).map CoState.withinCount
      = some (some 2) ∧
    (MPIR_Comm_release_coshared_acrossComm_ref (sharedCell 1)).map
      (fun r => r.1.withinCount) = some (some 0) := by
  decide

/-- C5, the code at the failing input: when only `COMP_MAP` is defined, the entry that a
single `RTWmapInsert` was asked to add is not found afterwards, while the same calls find it
under the array selection and a block insert of the same entry is found under both. -/
theorem comp_map_insert_dropped :
    selectRTWmap { ARRAY_MAP := false, COMP_MAP := true } = compSelection ∧
    compSelection.RTWmapInsert = Replacement.empty ∧
    insertThenFind { ARRAY_MAP := false, COMP_MAP := true } 0 5 7 = some none ∧
    insertThenFind { ARRAY_MAP := false, COMP_MAP := false } 0 5 7 = some (some (5, 7)) ∧
    blockInsertThenFind { ARRAY_MAP := false, COMP_MAP := true } 0 5 7 = some (some (5, 7)) ∧
    blockInsertThenFind { ARRAY_MAP := false, COMP_MAP := false } 0 5 7
      = some (some (5, 7)) := by
  decide

/-- C6, the code on every configuration: whichever of `ARRAY_MAP` and `COMP_MAP` are defined
when the header is read, the `#else` branch is not taken, so `RTWmap` is never `hshtbl` and
no `RTWmap*` name is bound to an `RTWhash*` routine; the array representation is selected
whenever `COMP_MAP` is undefined or `ARRAY_MAP` is defined. -/
theorem hash_branch_unreachable :
    (∀ c : MapConfig, selectRTWmap c ≠ hashSelection ∧
      (selectRTWmap c).RTWmap ≠ MapType.hshtbl ∧
      (selectRTWmap c).RTWmapCreate ≠ Replacement.fn MapFn.RTWhashCreate ∧
      (selectRTWmap c).RTWmapInsert ≠ Replacement.fn MapFn.RTWhashInsert ∧
      (selectRTWmap c).RTWmapFind ≠ Replacement.fn MapFn.RTWhashFind) ∧
    (∀ c : MapConfig, (c.ARRAY_MAP = true ∨ c.COMP_MAP = false) →
      selectRTWmap c = arraySelection) ∧
    arraySelection.RTWmap = MapType.int := by
  refine ⟨?_, ?_, rfl⟩
  · rintro ⟨a, b⟩
    cases a <;> cases b <;> decide
  · rintro ⟨a, b⟩
    cases a <;> cases b <;> decide

/-- C7, the code at the failing input: when neither `ARRAY_MAP` nor `COMP_MAP` is defined
before the header is read, lines 49-51 define `ARRAY_MAP`, so the array branch is taken:
`RTWmap` is `int` and the names are bound to the `RTWarray*` routines. The `#else` branch,
which the comment of lines 81-83 announces as the default, is what the same configuration
would select without lines 49-51. -/
theorem default_selection_is_array :
    selectRTWmap { ARRAY_MAP := false, COMP_MAP := false } = arraySelection ∧
    (selectRTWmap { ARRAY_MAP := false, COMP_MAP := false }).RTWmap = MapType.int ∧
    (selectRTWmap { ARRAY_MAP := false, COMP_MAP := false }).RTWmapCreate
      = Replacement.fn MapFn.RTWarrayCreate ∧
    (selectRTWmap { ARRAY_MAP := false, COMP_MAP := false }).RTWmapInsert
      = Replacement.fn MapFn.RTWarrayInsert ∧
    (selectRTWmap { ARRAY_MAP := false, COMP_MAP := false }).RTWmapFind
      = Replacement.fn MapFn.RTWarrayFind ∧
    (selectRTWmap { ARRAY_MAP := false, COMP_MAP := false }).RTWmapFindLeader
      = Replacement.fn MapFn.RTWarrayFindLeader ∧
    selectRTWmap { ARRAY_MAP := false, COMP_MAP := false } ≠ hashSelection ∧
    selectBranch { ARRAY_MAP := false, COMP_MAP := false } = hashSelection := by
  decide

/-- C8 (as amended): what the accessor hands to its caller is, for a local rank other than
`MPI_PROC_NULL`, the content in which the find leaves the two output variables and nothing
else: the value that the find returns does not reach the caller, so two find routines that
write the same give the same accessor whatever they return. -/
theorem accessor_ignores_find_result {ρ σ : Type} (MPI_PROC_NULL : Int)
    (Set_PROC_NULL : RankOut → RankOut)
    (find1 : Option Nat → Int → RankOut → ρ × RankOut)
    (find2 : Option Nat → Int → RankOut → σ × RankOut)
    (comm_ : MPID_Comm) (localrank_ : Int) (out : RankOut) :
    ((∀ m r o, (find1 m r o).2 = (find2 m r o).2) →
      MPIDI_Comm_get_pid_worldrank MPI_PROC_NULL Set_PROC_NULL find1 comm_ localrank_ out
        = MPIDI_Comm_get_pid_worldrank MPI_PROC_NULL Set_PROC_NULL find2 comm_ localrank_
            out) ∧
    (∀ v, MPI_PROC_NULL ≠ localrank_ → comm_.co_shared_vars = some v →
      MPIDI_Comm_get_pid_worldrank MPI_PROC_NULL Set_PROC_NULL find1 comm_ localrank_ out
        = some (find1 v.rtw_map localrank_ out).2) := by
  constructor
  · intro h
    unfold MPIDI_Comm_get_pid_worldrank
    split
    · rfl
    · cases comm_.co_shared_vars with
      | none => rfl
      | some v => simp only [h]
  · intro v hne hv
    unfold MPIDI_Comm_get_pid_worldrank
    rw [if_neg hne, hv]

/-- Witness of C8: the find that reports NotFound for the absent local rank 1 and the find
that always returns 0 write the same and give the same accessor result. -/
theorem accessor_ignores_find_result_witness :
    (∀ m r o, (tableFind sampleMem m r o).2 = (tableFindSilent sampleMem m r o).2) ∧
    (tableFind sampleMem (some 0) 1 { worldrank := 5, pid := 7 }).1 = 1 ∧
    (tableFindSilent sampleMem (some 0) 1 { worldrank := 5, pid := 7 }).1 = 0 ∧
    MPIDI_Comm_get_pid_worldrank (-1) setBothMinusOne (tableFind sampleMem) sampleComm 1
        { worldrank := 5, pid := 7 }
      = MPIDI_Comm_get_pid_worldrank (-1) setBothMinusOne (tableFindSilent sampleMem)
          sampleComm 1 { worldrank := 5, pid := 7 } :=
  ⟨fun _ _ _ => rfl, by decide, by decide,
    (accessor_ignores_find_result (-1) setBothMinusOne (tableFind sampleMem)
      (tableFindSilent sampleMem) sampleComm 1 { worldrank := 5, pid := 7 }).1
      (fun _ _ _ => rfl)⟩

/-- C8 fails as stated: the local rank 1 is not `MPI_PROC_NULL` and is absent from the map,
the find returns the NotFound failure, and the accessor hands its caller exactly what it
hands for the local rank 0, which is present and whose find succeeds. -/
theorem accessor_drops_lookup_failure :
    (-1 : Int) ≠ 1 ∧
    (Table.assoc [(0, 5, 7)]).find 1 = none ∧
    (tableFind sampleMem (some 0) 1 { worldrank := 5, pid := 7 }).1 = 1 ∧
    (tableFind sampleMem (some 0) 0 { worldrank := 5, pid := 7 }).1 = 0 ∧
    MPIDI_Comm_get_pid_worldrank (-1) setBothMinusOne (tableFind sampleMem) sampleComm 1
        { worldrank := 5, pid := 7 }
      = MPIDI_Comm_get_pid_worldrank (-1) setBothMinusOne (tableFind sampleMem) sampleComm 0
          { worldrank := 5, pid := 7 } := by
  decide

theorem hindexed_block_sample : MPIR_Type_create_hindexed_block_impl okEnv 3 2 [10, 20, 30] 7
    = some { mpi_errno := 0
             recorded := some (1,
               { combiner := Combiner.MPIX_COMBINER_HINDEXED_BLOCK
                 nr_ints := 5, nr_aints := 0, nr_types := 1
                 array_of_ints := [3, 2, 10, 20, 30], array_of_aints := none
                 array_of_types := [7] })
             newtype := some 1 } := by decide

theorem copyDisplacements_spec (disps : List Int) : ∀ (m k : Nat) (hd mid : List Int),
    hd.length = 2 → mid.length = k → k + m ≤ disps.length →
    copyDisplacements disps (hd ++ mid ++ List.replicate m 0) (List.range' k m)
      = some (hd ++ mid ++ ((disps.drop k).take m).map wrapInt) := by
  intro m
  induction m with
  | zero =>
    intro k hd mid _ _ _
    simp [copyDisplacements]
  | succ m ih =>
    intro k hd mid hhd hmid hk
    have hlt : k < disps.length := by omega
    have hd1 : disps[k]? = some (disps.get ⟨k, hlt⟩) := List.getElem?_eq_getElem hlt
    have hlen : k + 2 < (hd ++ mid ++ List.replicate (m + 1) 0).length := by
      simp [hhd, hmid]; omega
    have hset : (hd ++ mid ++ List.replicate (m + 1) 0).set (k + 2)
          (wrapInt (disps.get ⟨k, hlt⟩))
        = hd ++ (mid ++ [wrapInt (disps.get ⟨k, hlt⟩)]) ++ List.replicate m 0 := by
      rw [List.set_append]
      have h1 : ¬ k + 2 < (hd ++ mid).length := by simp [hhd, hmid]; omega
      have h2 : k + 2 - (hd ++ mid).length = 0 := by simp [hhd, hmid]; omega
      rw [if_neg h1, h2, List.replicate_succ]
      simp
    have hdrop : (disps.drop k).take (m + 1)
        = disps.get ⟨k, hlt⟩ :: (disps.drop (k + 1)).take m := by
      rw [List.drop_eq_getElem_cons hlt, List.take_succ_cons]
      rfl
    have hrange : List.range' k (m + 1) = k :: List.range' (k + 1) m := by
      simp [List.range'_succ]
    rw [hrange]
    simp only [copyDisplacements, hd1]
    rw [if_pos hlen, hset, ih (k + 1) hd (mid ++ [wrapInt (disps.get ⟨k, hlt⟩)]) hhd
      (by simp [hmid]) (by omega), hdrop]
    simp

/-- The integers that the function records when the three routines it calls succeed: the
count, the block length and the first `count` displacements, each converted to `int`. -/
theorem hindexed_block_contents (env : TypeEnv) (blocklength : Int) (disps : List Int)
    (oldtype : Nat) (count : Nat) (hc : count ≤ disps.length)
    (hmax : (count : Int) + 2 ≤ INT_MAX)
    (hb : (env.MPID_Type_blockindexed count blocklength disps 1 oldtype).1 = 0)
    (hm : env.malloc_ints ((count : Int) + 2) = true) :
    ∃ r c, MPIR_Type_create_hindexed_block_impl env count blocklength disps oldtype = some r ∧
      r.recorded = some ((env.MPID_Type_blockindexed count blocklength disps 1 oldtype).2, c) ∧
      c.nr_ints = (count : Int) + 2 ∧ c.nr_aints = 0 ∧
      c.array_of_ints = (count : Int) :: blocklength :: (disps.take count).map wrapInt := by
  have hw : wrapInt ((count : Int) + 2) = (count : Int) + 2 := by
    apply wrapInt_of_isInt
    unfold isInt INT_MIN
    unfold INT_MAX at *
    omega
  have hn : ((count : Int) + 2).toNat = count + 2 := by omega
  have hrep : ((List.replicate (count + 2) (0 : Int)).set 0 (count : Int)).set 1 blocklength
      = [(count : Int), blocklength] ++ [] ++ List.replicate count 0 := by
    simp [List.replicate_succ]
  have hcopy := copyDisplacements_spec disps count 0 [(count : Int), blocklength] [] rfl rfl
    (by omega)
  rw [← List.range_eq_range'] at hcopy
  simp only [MPIR_Type_create_hindexed_block_impl, hb, hw, hm, hn, hrep,
    Int.toNat_ofNat, hcopy]
  simp only [ne_eq, not_true_eq_false, if_false, Bool.not_true, Bool.false_eq_true,
    List.length_replicate, List.drop_zero]
  rw [if_pos (by omega)]
  split <;> exact ⟨_, _, rfl, rfl, rfl, rfl, by simp⟩

/-- C9, the code at the failing input: with a 64-bit `MPI_Aint`, one block of length 1 at
the displacement `2^31` is recorded as the three integers 1, 1 and `-2^31`; entry 2 is not
the displacement that was passed in. -/
theorem hindexed_block_displacement_truncated :
    isAint64 2147483648 ∧
    MPIR_Type_create_hindexed_block_impl okEnv 1 1 [2147483648] 7
      = some { mpi_errno := 0
               recorded := some (1,
                 { combiner := Combiner.MPIX_COMBINER_HINDEXED_BLOCK
                   nr_ints := 3, nr_aints := 0, nr_types := 1
                   array_of_ints := [1, 1, -2147483648], array_of_aints := none
                   array_of_types := [7] })
               newtype := some 1 } ∧
    (-2147483648 : Int) ≠ 2147483648 := by
  decide

/-! ### Round trip of the modelled storage -/

theorem lookupEntries_append (es1 es2 : List (Nat × Int × Int)) (q : Nat) :
    lookupEntries (es1 ++ es2) q
      = match lookupEntries es1 q with
        | some e => some e
        | none => lookupEntries es2 q := by
  unfold lookupEntries
  rw [List.find?_append]
  cases List.find? (fun e => e.1 == q) es1 <;> simp

theorem Table.find_assoc (es : List (Nat × Int × Int)) (q : Nat) :
    (Table.assoc es).find q = lookupEntries es q := rfl

/-- An insert of an absent local rank succeeds, makes that rank resolve to the inserted pair
and leaves every other rank as it was. -/
theorem Table.find_insert (t : Table) (r : Nat) (w p : Int) (habs : t.find r = none) :
    ∃ t1, t.insert r w p = some t1 ∧
      ∀ q, t1.find q = if q = r then some (w, p) else t.find q := by
  cases t with
  | dense cells =>
    refine ⟨Table.dense ((cells ++ List.replicate (r + 1 - cells.length) none).set r
      (some (w, p))), by simp only [Table.insert, habs], ?_⟩
    intro q
    have hlen : r < (cells ++ List.replicate (r + 1 - cells.length) none).length := by
      simp; omega
    by_cases hq : q = r
    · subst hq
      simp only [Table.find, if_true]
      rw [List.getElem?_set_self hlen]
    · simp only [Table.find, if_neg hq]
      rw [List.getElem?_set_ne (Ne.symm hq)]
      by_cases hql : q < cells.length
      · rw [List.getElem?_append_left hql]
      · have hge : cells.length ≤ q := by omega
        rw [List.getElem?_append_right hge, List.getElem?_eq_none_iff.mpr hge]
        cases hrep : (List.replicate (r + 1 - cells.length) (none : Option (Int × Int)))[
            q - cells.length]? with
        | none => rfl
        | some v =>
          have := (List.getElem?_eq_some.mp hrep).2
          simp at this
          subst this
          rfl
  | assoc es =>
    refine ⟨Table.assoc (es ++ [(r, w, p)]), by simp only [Table.insert, habs], ?_⟩
    intro q
    rw [Table.find_assoc, lookupEntries_append, ← Table.find_assoc es q]
    by_cases hq : q = r
    · subst hq
      rw [habs]
      simp [lookupEntries]
    · rw [if_neg hq]
      cases (Table.assoc es).find q with
      | some e => rfl
      | none => simp [lookupEntries, Ne.symm hq]

theorem lookupEntries_cons (e : Nat × Int × Int) (es : List (Nat × Int × Int)) (q : Nat) :
    lookupEntries (e :: es) q = if e.1 = q then some e.2 else lookupEntries es q := by
  unfold lookupEntries
  by_cases h : e.1 = q
  · simp [List.find?_cons, h]
  · simp [List.find?_cons, h]

theorem lookupEntries_eq_none (es : List (Nat × Int × Int)) (q : Nat)
    (h : q ∉ es.map (fun e => e.1)) : lookupEntries es q = none := by
  induction es with
  | nil => rfl
  | cons e es ih =>
    simp only [List.map_cons, List.mem_cons, not_or] at h
    rw [lookupEntries_cons, if_neg (fun hq => h.1 hq.symm)]
    exact ih h.2

/-- With distinct local ranks, every entry of a list is the one the list holds for its
rank. -/
theorem lookupEntries_mem (es : List (Nat × Int × Int))
    (hnd : (es.map (fun e => e.1)).Nodup) (e : Nat × Int × Int) (he : e ∈ es) :
    lookupEntries es e.1 = some e.2 := by
  induction es with
  | nil => exact absurd he (by simp)
  | cons x es ih =>
    simp only [List.map_cons, List.nodup_cons] at hnd
    rw [lookupEntries_cons]
    rcases List.mem_cons.mp he with h | h
    · subst h
      simp
    · have hne : x.1 ≠ e.1 := by
        intro hx
        exact hnd.1 (hx ▸ List.mem_map_of_mem (fun e => e.1) h)
      rw [if_neg hne]
      exact ih hnd.2 h

/-- A block insert of entries with distinct local ranks, all absent from the table,
succeeds; afterwards a rank of the block resolves to the pair of its entry and every other
rank is as it was. -/
theorem Table.find_blockInsert (es : List (Nat × Int × Int)) : ∀ t : Table,
    (es.map (fun e => e.1)).Nodup → (∀ e ∈ es, t.find e.1 = none) →
    ∃ t1, t.blockInsert es = some t1 ∧
      ∀ q, t1.find q = match lookupEntries es q with
                       | some v => some v
                       | none => t.find q := by
  induction es with
  | nil =>
    intro t _ _
    exact ⟨t, rfl, fun q => rfl⟩
  | cons e es ih =>
    intro t hnd habs
    simp only [List.map_cons, List.nodup_cons] at hnd
    obtain ⟨t1, h1, hf1⟩ := Table.find_insert t e.1 e.2.1 e.2.2 (habs e (by simp))
    have habs1 : ∀ x ∈ es, t1.find x.1 = none := by
      intro x hx
      have hne : x.1 ≠ e.1 := by
        intro h
        exact hnd.1 (h ▸ List.mem_map_of_mem (fun e => e.1) hx)
      rw [hf1, if_neg hne]
      exact habs x (by simp [hx])
    obtain ⟨t2, h2, hf2⟩ := ih t1 hnd.2 habs1
    refine ⟨t2, by simp only [Table.blockInsert, h1, h2], ?_⟩
    intro q
    rw [hf2, lookupEntries_cons, hf1]
    by_cases hq : e.1 = q
    · subst hq
      rw [lookupEntries_eq_none es e.1 hnd.1]
      simp
    · rw [if_neg hq, if_neg (fun h => hq h.symm)]

theorem runCalls_array (calls : List InsertCall) : ∀ t : Table,
    runCalls arraySelection t calls = t.blockInsert (entriesOf calls) := by
  induction calls with
  | nil => intro t; rfl
  | cons c calls ih =>
    intro t
    cases c with
    | single r w p =>
      simp only [runCalls, entriesOf, Table.blockInsert, RTWmapInsert, arraySelection,
        insertBy]
      cases t.insert r w p with
      | none => rfl
      | some t1 => exact ih t1
    | block es =>
      simp only [runCalls, entriesOf, RTWmapBlockInsert, arraySelection, blockInsertBy]
      induction es generalizing t with
      | nil => exact ih t
      | cons e es ihe =>
        simp only [Table.blockInsert, List.cons_append]
        cases t.insert e.1 e.2.1 e.2.2 with
        | none => rfl
        | some t1 => exact ihe t1

theorem runCalls_comp (calls : List InsertCall) : ∀ t : Table,
    runCalls compSelection t calls = t.blockInsert (blockEntriesOf calls) := by
  induction calls with
  | nil => intro t; rfl
  | cons c calls ih =>
    intro t
    cases c with
    | single r w p =>
      simp only [runCalls, blockEntriesOf, RTWmapInsert, compSelection]
      exact ih t
    | block es =>
      simp only [runCalls, blockEntriesOf, RTWmapBlockInsert, compSelection, blockInsertBy]
      induction es generalizing t with
      | nil => exact ih t
      | cons e es ihe =>
        simp only [Table.blockInsert, List.cons_append]
        cases t.insert e.1 e.2.1 e.2.2 with
        | none => rfl
        | some t1 => exact ihe t1

theorem blockEntriesOf_sublist (calls : List InsertCall) :
    (blockEntriesOf calls).Sublist (entriesOf calls) := by
  induction calls with
  | nil => exact List.Sublist.refl _
  | cons c calls ih =>
    cases c with
    | single r w p => exact List.Sublist.cons _ ih
    | block es => exact List.Sublist.append (List.Sublist.refl es) ih

/-- Round trip of the modelled storage under the two selections the header can make: with
distinct local ranks, the array selection finds the pair of every entry inserted through
`RTWmapInsert` or `RTWmapBlockInsert`, the compressed-map selection finds the pair of every
entry inserted through `RTWmapBlockInsert`, and both answer every lookup alike when all
inserts are block inserts. -/
theorem rtw_round_trip (calls : List InsertCall)
    (hnd : ((entriesOf calls).map (fun e => e.1)).Nodup) :
    ∃ ta tc,
      runCalls arraySelection (Table.dense []) calls = some ta ∧
      runCalls compSelection (Table.assoc []) calls = some tc ∧
      RTWmapCreate arraySelection = some (Table.dense []) ∧
      RTWmapCreate compSelection = some (Table.assoc []) ∧
      (∀ e ∈ entriesOf calls, RTWmapFind arraySelection ta e.1 = some (some e.2)) ∧
      (∀ e ∈ blockEntriesOf calls, RTWmapFind compSelection tc e.1 = some (some e.2)) ∧
      (blockEntriesOf calls = entriesOf calls →
        ∀ q, RTWmapFind compSelection tc q = RTWmapFind arraySelection ta q) := by
  have hndb : ((blockEntriesOf calls).map (fun e => e.1)).Nodup :=
    hnd.sublist ((blockEntriesOf_sublist calls).map _)
  obtain ⟨ta, ha, hfa⟩ := Table.find_blockInsert (entriesOf calls) (Table.dense []) hnd
    (fun _ _ => by simp [Table.find])
  obtain ⟨tc, hc, hfc⟩ := Table.find_blockInsert (blockEntriesOf calls) (Table.assoc []) hndb
    (fun _ _ => rfl)
  have hfa2 : ∀ q, RTWmapFind arraySelection ta q = some (lookupEntries (entriesOf calls) q) := by
    intro q
    simp only [RTWmapFind, arraySelection, findBy, hfa]
    cases lookupEntries (entriesOf calls) q <;> simp [Table.find]
  have hfc2 : ∀ q, RTWmapFind compSelection tc q
      = some (lookupEntries (blockEntriesOf calls) q) := by
    intro q
    simp only [RTWmapFind, compSelection, findBy, hfc]
    cases lookupEntries (blockEntriesOf calls) q <;> simp [Table.find]
  refine ⟨ta, tc, (runCalls_array calls _).trans ha, (runCalls_comp calls _).trans hc,
    rfl, rfl, ?_, ?_, ?_⟩
  · intro e he
    rw [hfa2, lookupEntries_mem _ hnd e he]
  · intro e he
    rw [hfc2, lookupEntries_mem _ hndb e he]
  · intro heq q
    rw [hfa2, hfc2, heq]

/-! ### The ADLB mimic test -/

theorem MAX_BUF_SIZE_eq : MAX_BUF_SIZE = 419430400 := by decide

theorem PUT_SIZE_eq : PUT_SIZE = 1048576 := by decide

theorem sizeGuardAborts_eq_false (comm_size : Int) :
    sizeGuardAborts comm_size = false ↔ 2 < comm_size ∧ comm_size ≤ 400 := by
  have h : MAX_BUF_SIZE / PUT_SIZE = 400 := by decide
  unfold sizeGuardAborts
  rw [h]
  simp only [Bool.or_eq_false_iff, decide_eq_false_iff_not]
  omega

/-- C16: in the ADLB mimic test `MAX_BUF_SIZE / PUT_SIZE` is 400 and a communicator size
passes the guard exactly when `2 < comm_size <= 400`. For such a size and origin ranks `r`,
`q` with `2 <= r, q < comm_size`: the put of `r` covers the bytes from `r * PUT_SIZE` up to,
not including, `(r + 1) * PUT_SIZE`, all inside the window of `MAX_BUF_SIZE` bytes; the
ranges of `r` and `q` are disjoint when `r` and `q` differ; the byte the target checks is the
last byte of the range of `r`; the range the target resets starts where the range of `r`
starts and has its length; and every offset fits a signed 32-bit `int`. -/
theorem adlb_offsets (comm_size r q : Int) (hg : sizeGuardAborts comm_size = false)
    (hr : 2 ≤ r ∧ r < comm_size) (hq : 2 ≤ q ∧ q < comm_size) :
    MAX_BUF_SIZE / PUT_SIZE = 400 ∧ 2 < comm_size ∧ comm_size ≤ 400 ∧
    putOffset r = r * PUT_SIZE ∧
    0 ≤ putOffset r ∧ putOffset r + PUT_SIZE = (r + 1) * PUT_SIZE ∧
    putOffset r + PUT_SIZE ≤ MAX_BUF_SIZE ∧
    (r ≠ q → putOffset r + PUT_SIZE ≤ putOffset q ∨ putOffset q + PUT_SIZE ≤ putOffset r) ∧
    checkOffset r = (r + 1) * PUT_SIZE - 1 ∧
    checkOffset r = putOffset r + PUT_SIZE - 1 ∧
    resetOffset r = putOffset r ∧
    isInt (putOffset r) ∧ isInt (putOffset r + PUT_SIZE) ∧ isInt (checkOffset r) ∧
    isInt (resetOffset r) ∧ isInt MAX_BUF_SIZE ∧ isInt PUT_SIZE := by
  have hgd := (sizeGuardAborts_eq_false comm_size).mp hg
  unfold putOffset checkOffset resetOffset isInt INT_MIN INT_MAX
  rw [MAX_BUF_SIZE_eq, PUT_SIZE_eq] at *
  unfold wrapInt
  refine ⟨by decide, hgd.1, hgd.2, ?_, ?_, ?_, ?_, ?_, ?_, ?_, ?_, ?_, ?_, ?_, ?_, ?_, ?_⟩ <;>
    omega

/-- Witness of C16: five processes, origin ranks 2 and 4. -/
theorem adlb_offsets_witness :
    sizeGuardAborts 5 = false ∧ ((2 : Int) ≤ 2 ∧ (2 : Int) < 5) ∧ ((2 : Int) ≤ 4 ∧ (4 : Int) < 5) ∧
    putOffset 2 = 2 * PUT_SIZE ∧ checkOffset 2 = (2 + 1) * PUT_SIZE - 1 ∧
    putOffset 2 + PUT_SIZE ≤ putOffset 4 :=
  have h := adlb_offsets 5 2 4 (by decide) (by decide) (by decide)
  ⟨by decide, by decide, by decide, h.2.2.2.1, h.2.2.2.2.2.2.2.2.1, by decide⟩

/-! ### `RTWmapKill` -/

/-- C12: under each of the three branches, `RTWmapKill` on a holder that references the map
`m` calls the kill routine of the branch (`RTWarrayKill`, `RTWCompMapKill`, `hshkill`) once,
on `m`, and leaves `NULL` in the holder and every other holder as it was; a second
`RTWmapKill` on the same holder calls the routine on `NULL`, so that the record of calls
holds `m` exactly once. -/
theorem RTWmapKill_once {σ : Type} (sel : MapSelection)
    (hsel : sel = arraySelection ∨ sel = compSelection ∨ sel = hashSelection)
    (kill : MapFn → Option Nat → σ → σ) (d m : Nat) (s : KillState σ)
    (hm : s.holders[d]? = some (some m)) :
    (arraySelection.RTWmapKill = MapFn.RTWarrayKill ∧
      compSelection.RTWmapKill = MapFn.RTWCompMapKill ∧
      hashSelection.RTWmapKill = MapFn.hshkill) ∧
    (sel.RTWmapKill = MapFn.RTWarrayKill ∨ sel.RTWmapKill = MapFn.RTWCompMapKill ∨
      sel.RTWmapKill = MapFn.hshkill) ∧
    RTWmapKill sel kill (some d) s
      = some { holders := s.holders.set d none,
               external := kill sel.RTWmapKill (some m) s.external } ∧
    (s.holders.set d none)[d]? = some none ∧
    (∀ e, e ≠ d → (s.holders.set d none)[e]? = s.holders[e]?) ∧
    RTWmapKillTwice sel kill (some d) s
      = some { holders := s.holders.set d none,
               external := kill sel.RTWmapKill none
                 (kill sel.RTWmapKill (some m) s.external) } ∧
    (∀ log : List (MapFn × Option Nat), (∀ f, (f, some m) ∉ log) →
      ∀ s2, RTWmapKillTwice sel logKill (some d) { holders := s.holders, external := log }
          = some s2 →
        s2.external = log ++ [(sel.RTWmapKill, some m), (sel.RTWmapKill, none)] ∧
        s2.external.count (sel.RTWmapKill, some m) = 1) := by
  have hlt : d < s.holders.length := (List.getElem?_eq_some.mp hm).1
  have h1 : ∀ (τ : Type) (k : MapFn → Option Nat → τ → τ) (x : τ),
      RTWmapKill sel k (some d) { holders := s.holders, external := x }
        = some { holders := s.holders.set d none,
                 external := k sel.RTWmapKill (some m) x } := by
    intro τ k x
    simp only [RTWmapKill, hm]
  have hset : (s.holders.set d none)[d]? = some none := by
    rw [List.getElem?_set_self hlt]
  have h2 : ∀ (τ : Type) (k : MapFn → Option Nat → τ → τ) (x : τ),
      RTWmapKillTwice sel k (some d) { holders := s.holders, external := x }
        = some { holders := s.holders.set d none,
                 external := k sel.RTWmapKill none (k sel.RTWmapKill (some m) x) } := by
    intro τ k x
    simp only [RTWmapKillTwice, h1]
    simp only [RTWmapKill, hset, List.set_set]
  have hk : sel.RTWmapKill = MapFn.RTWarrayKill ∨ sel.RTWmapKill = MapFn.RTWCompMapKill ∨
      sel.RTWmapKill = MapFn.hshkill := by
    rcases hsel with h | h | h
    · exact Or.inl (h ▸ rfl)
    · exact Or.inr (Or.inl (h ▸ rfl))
    · exact Or.inr (Or.inr (h ▸ rfl))
  refine ⟨⟨rfl, rfl, rfl⟩, hk, h1 σ kill s.external, hset, ?_, h2 σ kill s.external, ?_⟩
  · intro e he
    rw [List.getElem?_set_ne (Ne.symm he)]
  · intro log hlog s2 hs2
    rw [h2] at hs2
    have := Option.some.inj hs2
    subst this
    refine ⟨by simp [logKill], ?_⟩
    have hc : log.count (sel.RTWmapKill, some m) = 0 :=
      List.count_eq_zero.mpr (hlog _)
    simp [logKill, List.count_append, hc, List.count_cons]

/-- Witness of C12: the holder at address 0 references the map 7; array branch. -/
theorem RTWmapKill_once_witness :
    (arraySelection = arraySelection ∨ arraySelection = compSelection ∨
      arraySelection = hashSelection) ∧
    ([some 7, some 9] : List (Option Nat))[0]? = some (some 7) ∧
    RTWmapKill arraySelection logKill (some 0) { holders := [some 7, some 9], external := [] }
      = some { holders := [none, some 9], external := [(MapFn.RTWarrayKill, some 7)] } ∧
    RTWmapKillTwice arraySelection logKill (some 0)
        { holders := [some 7, some 9], external := [] }
      = some { holders := [none, some 9],
               external := [(MapFn.RTWarrayKill, some 7), (MapFn.RTWarrayKill, none)] } :=
  have h := RTWmapKill_once arraySelection (Or.inl rfl) logKill 0 7
    { holders := [some 7, some 9], external := [] } rfl
  ⟨Or.inl rfl, rfl, h.2.2.1, h.2.2.2.2.2.1⟩

/-! ### The two branches of the translation accessor -/

/-- C13: when the local rank is `MPI_PROC_NULL`, the accessor gives what `Set_PROC_NULL`
makes of the two output variables, whatever the find routine and the communicator are (the
map is not consulted), and that is `MPI_PROC_NULL` in both when `Set_PROC_NULL` stores
`MPI_PROC_NULL` in both; for every other local rank and a communicator with a
`co_shared_vars`, the outputs are those the find routine produces for that local rank in
`co_shared_vars->rtw_map`. -/
theorem accessor_branches {ρ : Type} (MPI_PROC_NULL : Int)
    (Set_PROC_NULL : RankOut → RankOut)
    (RTWPmapFind : Option Nat → Int → RankOut → ρ × RankOut)
    (comm_ : MPID_Comm) (localrank_ : Int) (out : RankOut) :
    (localrank_ = MPI_PROC_NULL →
      (∀ (τ : Type) (find2 : Option Nat → Int → RankOut → τ × RankOut) (comm2 : MPID_Comm),
        MPIDI_Comm_get_pid_worldrank MPI_PROC_NULL Set_PROC_NULL find2 comm2 localrank_ out
          = some (Set_PROC_NULL out)) ∧
      ((∀ o, Set_PROC_NULL o = { worldrank := MPI_PROC_NULL, pid := MPI_PROC_NULL }) →
        MPIDI_Comm_get_pid_worldrank MPI_PROC_NULL Set_PROC_NULL RTWPmapFind comm_
            localrank_ out
          = some { worldrank := MPI_PROC_NULL, pid := MPI_PROC_NULL })) ∧
    (localrank_ ≠ MPI_PROC_NULL → ∀ v, comm_.co_shared_vars = some v →
      MPIDI_Comm_get_pid_worldrank MPI_PROC_NULL Set_PROC_NULL RTWPmapFind comm_ localrank_
          out
        = some (RTWPmapFind v.rtw_map localrank_ out).2) := by
  constructor
  · intro h
    subst h
    constructor
    · intro τ find2 comm2
      simp only [MPIDI_Comm_get_pid_worldrank, if_true]
    · intro hset
      simp only [MPIDI_Comm_get_pid_worldrank, if_true, hset]
  · intro h v hv
    simp only [MPIDI_Comm_get_pid_worldrank, if_neg (Ne.symm h), hv]

/-- Witness of C13: `MPI_PROC_NULL` is -1; the local rank -1 gives -1 in both outputs and
the local rank 0 gives the pair of the map. -/
theorem accessor_branches_witness :
    (∀ o, setBothMinusOne o = { worldrank := -1, pid := -1 }) ∧
    MPIDI_Comm_get_pid_worldrank (-1) setBothMinusOne (tableFind sampleMem) sampleComm (-1)
        { worldrank := 3, pid := 4 }
      = some { worldrank := -1, pid := -1 } ∧
    (0 : Int) ≠ -1 ∧
    MPIDI_Comm_get_pid_worldrank (-1) setBothMinusOne (tableFind sampleMem) sampleComm 0
        { worldrank := 3, pid := 4 }
      = some { worldrank := 5, pid := 7 } :=
  ⟨fun _ => rfl,
    ((accessor_branches (-1) setBothMinusOne (tableFind sampleMem) sampleComm (-1)
      { worldrank := 3, pid := 4 }).1 rfl).2 (fun _ => rfl),
    by decide,
    (accessor_branches (-1) setBothMinusOne (tableFind sampleMem) sampleComm 0
      { worldrank := 3, pid := 4 }).2 (by decide) _ rfl⟩

/-! ### The SGE hostfile tokens -/

theorem runTokens_sample :
    runTokens okHydEnv (streamOf 1 [["n1", "4", "q", "x"], ["n2", "16"]]) initialSgeState
      = ([HYD_status.HYD_SUCCESS, HYD_status.HYD_SUCCESS, HYD_status.HYD_SUCCESS,
          HYD_status.HYD_SUCCESS, HYD_status.HYD_SUCCESS, HYD_status.HYD_SUCCESS],
         { entry_count := 2, hostname := none,
           global_node_list := [(some "n1", 4), (some "n2", 16)] }) := by
  decide

theorem runTokens_append (env : HydEnv) (a b : List (String × Int)) : ∀ s : SgeState,
    runTokens env (a ++ b) s
      = ((runTokens env a s).1 ++ (runTokens env b (runTokens env a s).2).1,
         (runTokens env b (runTokens env a s).2).2) := by
  induction a with
  | nil => intro s; rfl
  | cons x a ih =>
    intro s
    obtain ⟨token, newline⟩ := x
    rw [List.cons_append, runTokens, runTokens, ih]
    rfl

/-- Tokens that are not the first of their line, passed while no hostname is pending and
while the count of entries does not come back to 2: every call succeeds and only
`entry_count` changes. -/
theorem runTokens_later (env : HydEnv) (ts : List String) : ∀ (s : SgeState) (c : Int),
    s.hostname = none → s.entry_count = wrapInt c →
    (∀ i : Nat, 1 ≤ i → i ≤ ts.length → wrapInt (c + i) ≠ 2) →
    runTokens env (ts.map (fun x => (x, 0))) s
      = (List.replicate ts.length HYD_status.HYD_SUCCESS,
         { s with entry_count := wrapInt (c + ts.length) }) := by
  induction ts with
  | nil =>
    intro s c _ hc _
    simp only [List.map_nil, runTokens, List.length_nil, List.replicate_zero, Nat.cast_zero,
      add_zero, ← hc]
  | cons t ts ih =>
    intro s c hh hc hne
    have h1 : wrapInt (s.entry_count + 1) = wrapInt (c + 1) := by
      rw [hc, wrapInt_add_wrapInt]
    have h2 : wrapInt (c + 1) ≠ 2 := by
      have := hne 1 (le_refl 1) (by simp)
      simpa using this
    have hstep : process_mfile_token env t 0 s
        = (HYD_status.HYD_SUCCESS, { s with entry_count := wrapInt (c + 1) }) := by
      simp only [process_mfile_token, h1, ne_eq, not_true_eq_false, if_false, h2,
        not_false_eq_true, if_true]
    have hrest := ih { s with entry_count := wrapInt (c + 1) } (c + 1) hh rfl (by
      intro i hi1 hi2
      have := hne (i + 1) (by omega) (by simp; omega)
      have he : c + 1 + (i : Int) = c + ((i + 1 : Nat) : Int) := by push_cast; ring
      rw [he]
      exact this)
    simp only [List.map_cons, runTokens, hstep, hrest, List.length_cons, List.replicate_succ]
    congr 2
    congr 1
    push_cast
    ring

/-- C15: a first token of a line (`newline` set) that arrives while a hostname is pending
makes `process_mfile_token` return `HYD_INTERNAL_ERROR`, adds nothing to the node list and
leaves the pending hostname in place; this is what happens to the first token of the line
that follows a line made of a hostname only. -/
theorem pending_hostname_is_error (env : HydEnv) (token : String) (newline : Int)
    (s : SgeState) (h : String) (hnl : newline ≠ 0) (hp : s.hostname = some h) :
    process_mfile_token env token newline s
      = (HYD_status.HYD_INTERNAL_ERROR, { s with entry_count := 1 }) ∧
    (process_mfile_token env token newline s).2.global_node_list = s.global_node_list ∧
    (process_mfile_token env token newline s).2.hostname = some h ∧
    (∀ (first : String) (nl1 : Int) (c : String), nl1 ≠ 0 → env.HYDU_strdup first = some c →
      runTokens env [(first, nl1), (token, newline)] initialSgeState
        = ([HYD_status.HYD_SUCCESS, HYD_status.HYD_INTERNAL_ERROR],
           { entry_count := 1, hostname := some c, global_node_list := [] })) := by
  have h1 : process_mfile_token env token newline s
      = (HYD_status.HYD_INTERNAL_ERROR, { s with entry_count := 1 }) := by
    simp only [process_mfile_token, hnl, ne_eq, not_false_eq_true, if_true, hp]
  refine ⟨h1, by rw [h1], by rw [h1]; exact hp, ?_⟩
  intro first nl1 c hnl1 hc
  simp only [runTokens, process_mfile_token, hnl1, hnl, ne_eq, not_false_eq_true, if_true,
    initialSgeState, hc]

/-- Witness of C15: the line `n1` alone, then the line that starts with `n2`. -/
theorem pending_hostname_is_error_witness :
    (1 : Int) ≠ 0 ∧
    process_mfile_token okHydEnv "n2" 1
        { entry_count := 1, hostname := some "n1", global_node_list := [] }
      = (HYD_status.HYD_INTERNAL_ERROR,
         { entry_count := 1, hostname := some "n1", global_node_list := [] }) ∧
    runTokens okHydEnv [("n1", 1), ("n2", 1)] initialSgeState
      = ([HYD_status.HYD_SUCCESS, HYD_status.HYD_INTERNAL_ERROR],
         { entry_count := 1, hostname := some "n1", global_node_list := [] }) :=
  have h := pending_hostname_is_error okHydEnv "n2" 1
    { entry_count := 1, hostname := some "n1", global_node_list := [] } "n1" (by decide) rfl
  ⟨by decide, h.1, h.2.2.2 "n1" 1 "n1" (by decide) rfl⟩

theorem wrapInt_two : wrapInt 2 = 2 := by decide

/-- One line of at least two tokens, passed while no hostname is pending: every call
succeeds and the node list receives the entry of the line and nothing else. -/
theorem runTokens_line (env : HydEnv) (nl : Int) (hnl : nl ≠ 0)
    (hdup : ∀ t, env.HYDU_strdup t = some t)
    (hadd : ∀ h n l, env.HYDU_add_to_node_list h n l = HYD_status.HYD_SUCCESS)
    (l : List String) (hl : 2 ≤ l.length ∧ (l.length : Int) ≤ INT_MAX)
    (s : SgeState) (hh : s.hostname = none) :
    runTokens env (lineTokens nl l) s
      = (List.replicate l.length HYD_status.HYD_SUCCESS,
         { entry_count := l.length, hostname := none,
           global_node_list := s.global_node_list ++ [entryOf env l] }) := by
  cases l with
  | nil => exact absurd hl.1 (by simp)
  | cons t1 l1 =>
    cases l1 with
    | nil => exact absurd hl.1 (by simp)
    | cons t2 rest =>
      have hlen : ((rest.length : Int) + 2) ≤ 2147483647 := by
        have := hl.2
        simp only [List.length_cons, INT_MAX] at this
        push_cast at this
        omega
      have h1 : process_mfile_token env t1 nl s
          = (HYD_status.HYD_SUCCESS, { s with entry_count := 1, hostname := some t1 }) := by
        simp only [process_mfile_token, hnl, ne_eq, not_false_eq_true, if_true, hh, hdup]
      have h2 : process_mfile_token env t2 0
            { s with entry_count := 1, hostname := some t1 }
          = (HYD_status.HYD_SUCCESS,
             { entry_count := 2, hostname := none,
               global_node_list := s.global_node_list ++ [(some t1, env.atoi t2)] }) := by
        have hw : wrapInt (1 + 1) = 2 := by decide
        simp only [process_mfile_token, ne_eq, not_true_eq_false, if_false, hw, hadd]
      have h3 := runTokens_later env rest
        { entry_count := 2, hostname := none,
          global_node_list := s.global_node_list ++ [(some t1, env.atoi t2)] } 2 rfl
        wrapInt_two.symm (by
          intro i hi1 hi2
          unfold wrapInt
          omega)
      have hw : wrapInt (2 + (rest.length : Int)) = (rest.length : Int) + 2 := by
        unfold wrapInt
        omega
      simp only [lineTokens, runTokens, h1, h2, h3, hw, entryOf,
        List.length_cons, List.replicate_succ]
      simp
      ring

theorem lineTokens_length (nl : Int) (l : List String) :
    (lineTokens nl l).length = l.length := by
  cases l <;> simp [lineTokens]

/-- A stream of lines passed while no hostname is pending: every call succeeds, no hostname
is pending at the end and the node list receives the entries of the lines, in order. -/
theorem runTokens_stream (env : HydEnv) (nl : Int) (hnl : nl ≠ 0)
    (hdup : ∀ t, env.HYDU_strdup t = some t)
    (hadd : ∀ h n l, env.HYDU_add_to_node_list h n l = HYD_status.HYD_SUCCESS)
    (lines : List (List String)) :
    (∀ l ∈ lines, 2 ≤ l.length ∧ (l.length : Int) ≤ INT_MAX) →
    ∀ s : SgeState, s.hostname = none →
      (runTokens env (streamOf nl lines) s).1
        = List.replicate (streamOf nl lines).length HYD_status.HYD_SUCCESS ∧
      (runTokens env (streamOf nl lines) s).2.hostname = none ∧
      (runTokens env (streamOf nl lines) s).2.global_node_list
        = s.global_node_list ++ lines.map (entryOf env) := by
  induction lines with
  | nil =>
    intro _ s hh
    simp [streamOf, runTokens, hh]
  | cons l ls ih =>
    intro hlen s hh
    have hl := hlen l (by simp)
    have hline := runTokens_line env nl hnl hdup hadd l hl s hh
    obtain ⟨h1, h2, h3⟩ := ih (fun x hx => hlen x (by simp [hx]))
      { entry_count := l.length, hostname := none,
        global_node_list := s.global_node_list ++ [entryOf env l] } rfl
    rw [streamOf, runTokens_append, hline]
    refine ⟨?_, h2, ?_⟩
    · simp only [h1, List.length_append, lineTokens_length, List.replicate_add]
    · simp only [h3, List.map_cons, List.append_assoc, List.singleton_append]

/-- C14 (as amended): from the initial state, for every token stream in which the first
token of each line is passed with `newline` set and every line has at least two and at most
`INT_MAX` tokens, and as long as `HYDU_strdup` returns a copy of the token and
`HYDU_add_to_node_list` returns `HYD_SUCCESS`, `process_mfile_token` returns `HYD_SUCCESS` on
every token and the node list receives exactly one entry per line, in line order, with the
first token of the line as hostname, never `NULL`, and `atoi` of the second token as process
count; the later tokens of a line add nothing. -/
theorem sge_node_list (env : HydEnv) (nl : Int) (lines : List (List String)) (hnl : nl ≠ 0)
    (hlen : ∀ l ∈ lines, 2 ≤ l.length ∧ (l.length : Int) ≤ INT_MAX)
    (hdup : ∀ t, env.HYDU_strdup t = some t)
    (hadd : ∀ h n l, env.HYDU_add_to_node_list h n l = HYD_status.HYD_SUCCESS) :
    (runTokens env (streamOf nl lines) initialSgeState).1
      = List.replicate (streamOf nl lines).length HYD_status.HYD_SUCCESS ∧
    (runTokens env (streamOf nl lines) initialSgeState).2.global_node_list
      = lines.map (entryOf env) ∧
    (runTokens env (streamOf nl lines) initialSgeState).2.global_node_list.length
      = lines.length ∧
    (∀ l ∈ lines, ∃ first second, l[0]? = some first ∧ l[1]? = some second ∧
      entryOf env l = (some first, env.atoi second)) ∧
    (∀ e ∈ (runTokens env (streamOf nl lines) initialSgeState).2.global_node_list,
      e.1 ≠ none) ∧
    (runTokens env (streamOf nl lines) initialSgeState).2.hostname = none := by
  obtain ⟨h1, h2, h3⟩ := runTokens_stream env nl hnl hdup hadd lines hlen initialSgeState rfl
  have hentry : ∀ l ∈ lines, ∃ first second, l[0]? = some first ∧ l[1]? = some second ∧
      entryOf env l = (some first, env.atoi second) := by
    intro l hl
    have hl2 := (hlen l hl).1
    cases l with
    | nil => exact absurd hl2 (by simp)
    | cons a l1 =>
      cases l1 with
      | nil => exact absurd hl2 (by simp)
      | cons b rest => exact ⟨a, b, by simp, by simp, by simp [entryOf]⟩
  have h3b : (runTokens env (streamOf nl lines) initialSgeState).2.global_node_list
      = lines.map (entryOf env) := by
    rw [h3]; rfl
  refine ⟨h1, h3b, by rw [h3b, List.length_map], hentry, ?_, h2⟩
  intro e he
  rw [h3b] at he
  obtain ⟨l, hl, rfl⟩ := List.mem_map.mp he
  obtain ⟨first, second, _, _, h⟩ := hentry l hl
  rw [h]
  simp

/-- Witness of C14: the lines `n1 4 q x` and `n2 16`. -/
theorem sge_node_list_witness :
    (1 : Int) ≠ 0 ∧
    (∀ l ∈ [["n1", "4", "q", "x"], ["n2", "16"]],
      2 ≤ l.length ∧ (l.length : Int) ≤ INT_MAX) ∧
    (∀ t, okHydEnv.HYDU_strdup t = some t) ∧
    (∀ h n l, okHydEnv.HYDU_add_to_node_list h n l = HYD_status.HYD_SUCCESS) ∧
    (runTokens okHydEnv (streamOf 1 [["n1", "4", "q", "x"], ["n2", "16"]])
        initialSgeState).2.global_node_list
      = [["n1", "4", "q", "x"], ["n2", "16"]].map (entryOf okHydEnv) ∧
    [["n1", "4", "q", "x"], ["n2", "16"]].map (entryOf okHydEnv)
      = [(some "n1", 4), (some "n2", 16)] :=
  ⟨by decide, by decide, fun _ => rfl, fun _ _ _ => rfl,
    (sge_node_list okHydEnv 1 [["n1", "4", "q", "x"], ["n2", "16"]] (by decide) (by decide)
      (fun _ => rfl) (fun _ _ _ => rfl)).2.1,
    by decide⟩

/-- A line of `k + 3` tokens whose count of entries wraps back to 2 at its last token: that
token makes a second entry, with the `NULL` hostname. -/
theorem runTokens_long_line (env : HydEnv) (t1 t2 x : String) (k : Nat)
    (hdup : env.HYDU_strdup t1 = some t1)
    (hadd : ∀ h n l, env.HYDU_add_to_node_list h n l = HYD_status.HYD_SUCCESS)
    (hk : ∀ i : Nat, 1 ≤ i → i ≤ k → wrapInt (2 + (i : Int)) ≠ 2)
    (hk2 : wrapInt (2 + (k : Int) + 1) = 2) :
    (runTokens env (streamOf 1 [t1 :: t2 :: (List.replicate k x ++ [x])])
        initialSgeState).2.global_node_list
      = [(some t1, env.atoi t2), (none, env.atoi x)] := by
  have h1 : process_mfile_token env t1 1 initialSgeState
      = (HYD_status.HYD_SUCCESS,
         { entry_count := 1, hostname := some t1, global_node_list := [] }) := by
    simp only [process_mfile_token, initialSgeState, ne_eq, one_ne_zero, not_false_eq_true,
      if_true, hdup]
  have h2 : process_mfile_token env t2 0
        { entry_count := 1, hostname := some t1, global_node_list := [] }
      = (HYD_status.HYD_SUCCESS,
         { entry_count := 2, hostname := none,
           global_node_list := [(some t1, env.atoi t2)] }) := by
    have hw : wrapInt (1 + 1) = 2 := by decide
    simp only [process_mfile_token, ne_eq, not_true_eq_false, if_false, hw, hadd,
      List.nil_append, List.cons_append]
  have h3 := runTokens_later env (List.replicate k x)
    { entry_count := 2, hostname := none, global_node_list := [(some t1, env.atoi t2)] } 2
    rfl wrapInt_two.symm (by
      intro i hi1 hi2
      rw [List.length_replicate] at hi2
      exact hk i hi1 hi2)
  rw [List.length_replicate] at h3
  have h4 : process_mfile_token env x 0
        { entry_count := wrapInt (2 + (k : Int)), hostname := none,
          global_node_list := [(some t1, env.atoi t2)] }
      = (HYD_status.HYD_SUCCESS,
         { entry_count := 2, hostname := none,
           global_node_list := [(some t1, env.atoi t2), (none, env.atoi x)] }) := by
    have hw : wrapInt (wrapInt (2 + (k : Int)) + 1) = 2 := by
      rw [wrapInt_add_wrapInt]; exact hk2
    simp only [process_mfile_token, ne_eq, not_true_eq_false, if_false, hw, hadd,
      List.nil_append, List.cons_append]
  have e0 : streamOf 1 [t1 :: t2 :: (List.replicate k x ++ [x])]
      = (t1, 1) :: (t2, 0) :: ((List.replicate k x).map (fun y => (y, (0 : Int)))
          ++ [(x, 0)]) := by
    simp only [streamOf, List.append_nil, lineTokens, List.map_append, List.map_cons,
      List.map_nil]
  have e1 : ∀ (tok : String) (nl : Int) (rest : List (String × Int)) (s : SgeState),
      runTokens env ((tok, nl) :: rest) s
        = ((process_mfile_token env tok nl s).1
            :: (runTokens env rest (process_mfile_token env tok nl s).2).1,
           (runTokens env rest (process_mfile_token env tok nl s).2).2) :=
    fun _ _ _ _ => rfl
  rw [e0, e1, e1, h1, h2, runTokens_append, h3, e1, h4]
  rfl

theorem okHydEnv_atoi_sample :
    [((some "n1" : Option String), okHydEnv.atoi "4"), (none, okHydEnv.atoi "x")]
      = [(some "n1", 4), (none, 0)] := by
  decide

theorem wrap_returns_to_two :
    (∀ i : Nat, 1 ≤ i → i ≤ 4294967295 → wrapInt (2 + (i : Int)) ≠ 2) ∧
    wrapInt (2 + ((4294967295 : Nat) : Int) + 1) = 2 := by
  constructor
  · intro i hi1 hi2
    unfold wrapInt
    omega
  · decide

/-- C14 fails as stated. When `HYDU_add_to_node_list` returns an error, the second token of
the line `n1 4` makes `process_mfile_token` return that error and the hostname stays
pending. On a line of `2^32 + 2` tokens the count of entries wraps back to 2 at the last
token, which adds a second entry for the line, with the `NULL` hostname. -/
theorem sge_node_list_fails :
    runTokens failingAddEnv (streamOf 1 [["n1", "4"]]) initialSgeState
      = ([HYD_status.HYD_SUCCESS, HYD_status.other 1],
         { entry_count := 2, hostname := some "n1", global_node_list := [(some "n1", 4)] }) ∧
    (runTokens okHydEnv (streamOf 1 ["n1" :: "4" :: (List.replicate 4294967295 "x" ++ ["x"])])
        initialSgeState).2.global_node_list
      = [(some "n1", 4), (none, 0)] :=
  ⟨by decide,
    (runTokens_long_line okHydEnv "n1" "4" "x" 4294967295 rfl (fun _ _ _ => rfl)
      wrap_returns_to_two.1 wrap_returns_to_two.2).trans okHydEnv_atoi_sample⟩

/-! ### Event wait and notify -/

theorem notifyKey_length (key : scheduler_event) (r : Roster) :
    (notifyKey key r).length = r.length := by
  induction r with
  | nil => rfl
  | cons st rest ih =>
    unfold notifyKey
    split
    · rfl
    · simp [ih]

/-- In a roster where `p` is the only proclet that waits on the key, the notification makes
`p` Runnable and leaves every other proclet as it was. -/
theorem notifyKey_unique (key : scheduler_event) : ∀ (r : Roster) (p : Nat),
    r[p]? = some (ProcletState.WaitingOnEvent key) →
    (∀ q : Nat, q ≠ p → r[q]? ≠ some (ProcletState.WaitingOnEvent key)) →
    (notifyKey key r)[p]? = some ProcletState.Runnable ∧
    ∀ q : Nat, q ≠ p → (notifyKey key r)[q]? = r[q]? := by
  intro r
  induction r with
  | nil =>
    intro p hp _
    simp at hp
  | cons st rest ih =>
    intro p hp huniq
    cases p with
    | zero =>
      have hst : st = ProcletState.WaitingOnEvent key := by simpa using hp
      subst hst
      constructor
      · simp [notifyKey]
      · intro q hq
        cases q with
        | zero => exact absurd rfl hq
        | succ q => simp [notifyKey]
    | succ p =>
      have hst : st ≠ ProcletState.WaitingOnEvent key := by
        have := huniq 0 (by omega)
        simpa using this
      have hp2 : rest[p]? = some (ProcletState.WaitingOnEvent key) := by simpa using hp
      have hu2 : ∀ q : Nat, q ≠ p → rest[q]? ≠ some (ProcletState.WaitingOnEvent key) := by
        intro q hq
        have := huniq (q + 1) (by omega)
        simpa using this
      obtain ⟨h1, h2⟩ := ih p hp2 hu2
      constructor
      · simp only [notifyKey, if_neg hst, List.getElem?_cons_succ]
        exact h1
      · intro q hq
        cases q with
        | zero => simp [notifyKey, hst]
        | succ q =>
          simp only [notifyKey, if_neg hst, List.getElem?_cons_succ]
          exact h2 q (by omega)

/-- C11: when the Running proclet `caller` calls `FG_Yield_on_event(key)` and no proclet
waits on that key yet (the keys of the waiting proclets are pairwise distinct), the caller
becomes WaitingOnEvent(key) and no other proclet changes; a matching `FG_Notify_on_event`
then makes the caller Runnable and leaves every other proclet, waiting or not, as it was
before the yield. More generally, in every roster in which `p` is the only proclet that
waits on the key, the notification makes `p` Runnable and changes no other proclet. -/
theorem yield_then_notify (r : Roster) (caller : Nat) (key : scheduler_event)
    (hrun : r[caller]? = some ProcletState.Running)
    (hfresh : ∀ q : Nat, r[q]? ≠ some (ProcletState.WaitingOnEvent key)) :
    (∃ r1, FG_yield_on_event key caller r = some r1 ∧
      r1[caller]? = some (ProcletState.WaitingOnEvent key) ∧
      (∀ q : Nat, q ≠ caller → r1[q]? = r[q]?) ∧
      (FG_notify_on_event key.worldrank key.action r1)[caller]?
        = some ProcletState.Runnable ∧
      (∀ q : Nat, q ≠ caller → (FG_notify_on_event key.worldrank key.action r1)[q]? = r[q]?) ∧
      (FG_notify_on_event key.worldrank key.action r1).length = r.length) ∧
    (∀ (r2 : Roster) (p : Nat), r2[p]? = some (ProcletState.WaitingOnEvent key) →
      (∀ q : Nat, q ≠ p → r2[q]? ≠ some (ProcletState.WaitingOnEvent key)) →
      (FG_notify_on_event key.worldrank key.action r2)[p]? = some ProcletState.Runnable ∧
      ∀ q : Nat, q ≠ p → (FG_notify_on_event key.worldrank key.action r2)[q]? = r2[q]?) := by
  have hlt : caller < r.length := (List.getElem?_eq_some.mp hrun).1
  have hself : (r.set caller (ProcletState.WaitingOnEvent key))[caller]?
      = some (ProcletState.WaitingOnEvent key) := by
    rw [List.getElem?_set_self hlt]
  have hother : ∀ q : Nat, q ≠ caller →
      (r.set caller (ProcletState.WaitingOnEvent key))[q]? = r[q]? := by
    intro q hq
    rw [List.getElem?_set_ne (Ne.symm hq)]
  have huniq : ∀ q : Nat, q ≠ caller →
      (r.set caller (ProcletState.WaitingOnEvent key))[q]?
        ≠ some (ProcletState.WaitingOnEvent key) := by
    intro q hq
    rw [hother q hq]
    exact hfresh q
  obtain ⟨h1, h2⟩ := notifyKey_unique key _ caller hself huniq
  refine ⟨⟨r.set caller (ProcletState.WaitingOnEvent key), ?_, hself, hother, h1, ?_, ?_⟩, ?_⟩
  · simp only [FG_yield_on_event, hrun, if_true]
  · intro q hq
    exact (h2 q hq).trans (hother q hq)
  · simp only [FG_notify_on_event, notifyKey_length, List.length_set]
  · intro r2 p hp hu
    exact notifyKey_unique key r2 p hp hu

/-- No proclet of the sample roster (proclets 0 and 2 wait on two keys, proclet 1 runs,
proclet 3 is Runnable) waits on the key (1, 1). -/
theorem sampleRoster_fresh : ∀ q : Nat,
    ([ProcletState.WaitingOnEvent { worldrank := 0, action := 1 }, ProcletState.Running,
      ProcletState.WaitingOnEvent { worldrank := 2, action := 1 },
      ProcletState.Runnable] : Roster)[q]?
      ≠ some (ProcletState.WaitingOnEvent { worldrank := 1, action := 1 }) := by
  intro q
  match q with
  | 0 => decide
  | 1 => decide
  | 2 => decide
  | 3 => decide
  | (n + 4) => simp

/-- Witness of C11: proclets 0 and 2 wait on two keys, proclet 1 runs and yields on a third
key, proclet 3 is Runnable; the notification of the third key makes proclet 1 Runnable and
leaves proclets 0 and 2 waiting. -/
theorem yield_then_notify_witness :
    ([ProcletState.WaitingOnEvent { worldrank := 0, action := 1 }, ProcletState.Running,
      ProcletState.WaitingOnEvent { worldrank := 2, action := 1 },
      ProcletState.Runnable] : Roster)[1]? = some ProcletState.Running ∧
    ∃ r1, FG_yield_on_event { worldrank := 1, action := 1 } 1
        [ProcletState.WaitingOnEvent { worldrank := 0, action := 1 }, ProcletState.Running,
          ProcletState.WaitingOnEvent { worldrank := 2, action := 1 },
          ProcletState.Runnable] = some r1 ∧
      (FG_notify_on_event 1 1 r1)[1]? = some ProcletState.Runnable ∧
      (FG_notify_on_event 1 1 r1)[0]?
        = some (ProcletState.WaitingOnEvent { worldrank := 0, action := 1 }) ∧
      (FG_notify_on_event 1 1 r1)[2]?
        = some (ProcletState.WaitingOnEvent { worldrank := 2, action := 1 }) := by
  obtain ⟨⟨r1, hy, _, _, hn, ho, _⟩, _⟩ := yield_then_notify
    [ProcletState.WaitingOnEvent { worldrank := 0, action := 1 }, ProcletState.Running,
      ProcletState.WaitingOnEvent { worldrank := 2, action := 1 }, ProcletState.Runnable]
    1 { worldrank := 1, action := 1 } rfl sampleRoster_fresh
  exact ⟨rfl, r1, hy, hn, (ho 0 (by decide)).trans rfl, (ho 2 (by decide)).trans rfl⟩

end FGMPI
